import Mathlib

/-!
Verification of the container-orchestration engine in
`src/dockermap/map/client.py` (`MappingDockerClient`).

The runtime client is modelled as an oracle (`ClientEnv`) whose answers and
failure outcomes are arbitrary; every engine method is translated into a pure
function that threads an explicit `EngineState` (the name/image caches) and
emits the list of runtime calls it issues (`Event`).  Fallible paths return
`Except PyErr`; the events emitted before an exception are retained, matching
the side effects a raising Python call has already performed.
-/

namespace DockerMap

deriving instance DecidableEq for Except

/-- Python exceptions that the modelled code can raise. -/
inductive PyErr where
  | valueError (msg : String)
  | keyError
  | attrError
  | apiError (status : Nat)
  | cyclicDependency
deriving DecidableEq, Repr

/-- The value of one entry of a `binds` dict passed to the runtime `start`
call: `{'bind': container_path, 'ro': read_only}`. -/
structure BindSpec where
  bind : String
  ro : Bool
deriving DecidableEq, Repr

/-- One `(volume-alias, read-write flag)` entry of an assignment's `binds`
field. -/
structure BindEntry where
  volume : String
  readwrite : Bool
deriving DecidableEq, Repr

/-- Environment mappings are passed through opaquely; an association list is
enough structure for Python dict truthiness and equality. -/
abbrev EnvMap := List (String × String)

/-- An entry of the map's host-location table: either a single host path, or a
per-instance dict from instance name to host path. -/
inductive HostEntry where
  | single (path : String)
  | perInstance (entries : List (String × String))
deriving DecidableEq, Repr

/-- A container assignment (the fields of `client.py` reads from the
`ContainerMap`'s per-container configuration). -/
structure Assignment where
  image : Option String
  instances : List String
  shares : List String
  binds : List BindEntry
  user : Option String
  environment : Option EnvMap
  permissions : Option String
  links_to : List (String × String)
  uses : List String
  attaches : List String
deriving DecidableEq, Repr

/-- The `ContainerMap` collaborator: per-container assignments, the volume
alias → container path table, the alias → host location table, and the
deterministic naming function `cname`. -/
structure ContainerMap where
  containers : List (String × Assignment)
  volumes : List (String × String)
  host : List (String × HostEntry)
  cnameF : String → Option String → String

/-- The arguments of a runtime `create_container` call. -/
structure CreateArgs where
  image : String
  name : Option String
  volumes : Option (List String)
  user : Option String
  environment : Option EnvMap
  entrypoint : Option String
  command : Option (List String)
deriving DecidableEq, Repr

/-- An insertion-ordered Python dict with `Option String` keys (a per-instance
host lookup can yield a `None` key). -/
abbrev BindsDict := List (Option String × BindSpec)

/-- One runtime-client call issued by the engine. -/
inductive Event where
  | getContainerNames
  | getImageTags
  | importImage (image tag : String)
  | createContainer (args : CreateArgs)
  | startContainer (name : String) (binds : Option BindsDict)
      (volumesFrom : Option (List String)) (links : Option (List (String × String)))
  | stopContainer (name : String)
  | removeContainer (name : String)
  | waitContainer (name : String)
  | pushContainerLogs (name : String)
  | pushLog (msg : String)
deriving DecidableEq, Repr

/-- The engine's cached state: `self._container_names` and `self._image_tags`
(`none` = not yet loaded), plus a counter of `get_image_tags` client calls so
the oracle can answer each reload independently. -/
structure EngineState where
  containerNames : Option (List String)
  imageTags : Option (List String)
  imageCalls : Nat
deriving DecidableEq, Repr

/-- The runtime-client oracle: the answers and failure outcomes of the
external Docker client.  `createErr` is keyed by the requested container name
(`none` for the unnamed disposable container). -/
structure ClientEnv where
  containerNames : List String
  imageTags : Nat → List String
  tmpId : String
  createErr : Option String → Option PyErr
  startErr : String → Option PyErr
  stopErr : String → Option Nat
  removeErr : String → Option PyErr
  waitErr : String → Option PyErr
  logsErr : String → Option PyErr

/-! ### Python-semantics helpers -/

/-- Python truthiness of an optional string (`None` and `''` are falsy). -/
def truthyStr : Option String → Bool
  | none => false
  | some s => !s.isEmpty

/-- Python truthiness of an optional dict (`None` and `{}` are falsy). -/
def truthyEnv : Option EnvMap → Bool
  | none => false
  | some l => !l.isEmpty

/-- `a or b` for an optional string falling back to a string. -/
def pyOrStr (a : Option String) (b : String) : String :=
  if truthyStr a then a.getD b else b

/-- `a or b` for two optional strings. -/
def pyOrOptStr (a b : Option String) : Option String :=
  if truthyStr a then a else b

/-- `a or b` for two optional environment dicts. -/
def pyOrOptEnv (a b : Option EnvMap) : Option EnvMap :=
  if truthyEnv a then a else b

/-- Split a character list at its first colon (`none` when there is none). -/
def partitionColonAux : List Char → Option (List Char × List Char)
  | [] => none
  | c :: rest =>
    if c = ':' then some ([], rest)
    else
      match partitionColonAux rest with
      | none => none
      | some (pre, post) => some (c :: pre, post)

/-- `str.partition(':')`: split at the first colon, `(head, tail)` with
`tail = ""` when there is no colon. -/
def partitionColon (s : String) : String × String :=
  match partitionColonAux s.data with
  | none => (s, "")
  | some (pre, post) => (String.mk pre, String.mk post)

/-- Python dict assignment `d[k] = v`: replace in place, else append. -/
def dictInsert {κ ν : Type} [DecidableEq κ] : List (κ × ν) → κ → ν → List (κ × ν)
  | [], k, v => [(k, v)]
  | (k', v') :: rest, k, v =>
    if k' = k then (k, v) :: rest else (k', v') :: dictInsert rest k v

/-- `dict(pairs)`: build a dict from a pair sequence, later keys winning. -/
def dictOf {κ ν : Type} [DecidableEq κ] (ps : List (κ × ν)) : List (κ × ν) :=
  ps.foldl (fun d kv => dictInsert d kv.1 kv.2) []

/-- `d.update(pairs)`. -/
def dictUpdate {κ ν : Type} [DecidableEq κ] (d ps : List (κ × ν)) : List (κ × ν) :=
  ps.foldl (fun d' kv => dictInsert d' kv.1 kv.2) d

/-- `set.add`: insert if absent. -/
def cacheInsert (l : List String) (n : String) : List String :=
  if n ∈ l then l else l ++ [n]

/-- `set.remove` (the element is known to be present): drop it. -/
def cacheErase (l : List String) (n : String) : List String :=
  l.filter (fun x => x ≠ n)

/-- The cached container-name set of a state (empty when not loaded). -/
def cacheOf (st : EngineState) : List String :=
  st.containerNames.getD []

/-- `instances or assignments.instances or [None]` (`create`/`start`/`stop`). -/
def effectiveInstances (arg : List String) (asg : Assignment) : List (Option String) :=
  if arg.isEmpty then
    if asg.instances.isEmpty then [none] else asg.instances.map some
  else arg.map some

/-- Modelled from the spec: the constants `DEFAULT_BASEIMAGE` and
`DEFAULT_COREIMAGE` are imported from the package root, which is not under
`src/`; their concrete values are external and no claim depends on them. -/
def DEFAULT_BASEIMAGE : String := "default-base"

/-- Modelled from the spec: see `DEFAULT_BASEIMAGE`. -/
def DEFAULT_COREIMAGE : String := "default-core"

/-- Modelled from the spec: `get_user_group` from `dockermap.shortcuts` is not
under `src/`; it renders a chown argument and no claim depends on its value. -/
def getUserGroup (user : String) : String := user ++ ":" ++ user

/-- The rendering of an `APIError` when formatted into a log message; the
docker library's message text is external and no claim depends on it. -/
def apiErrStr (status : Nat) : String := "APIError(" ++ toString status ++ ")"

/-! ### Engine methods translated from `client.py` -/

/-- `_get`: look up the assignment, `ValueError` when missing. -/
def getAssignment (m : ContainerMap) (container : String) : Except PyErr Assignment :=
  match m.containers.lookup container with
  | none => .error (.valueError ("No assignments found for container '" ++ container ++ "'."))
  | some a => .ok a

/-- `_check_refresh_containers`. -/
def checkRefreshContainers (env : ClientEnv) (st : EngineState) (force : Bool) :
    List Event × EngineState :=
  if force || st.containerNames.isNone then
    ([.getContainerNames], { st with containerNames := some env.containerNames })
  else ([], st)

/-- `_check_refresh_images`. -/
def checkRefreshImages (env : ClientEnv) (st : EngineState) (force : Bool) :
    List Event × EngineState :=
  if force || st.imageTags.isNone then
    ([.getImageTags],
     { st with imageTags := some (env.imageTags st.imageCalls), imageCalls := st.imageCalls + 1 })
  else ([], st)

/-- `_get_container_names`. -/
def getContainerNamesM (env : ClientEnv) (st : EngineState) :
    List Event × EngineState × List String :=
  let (ev, st') := checkRefreshContainers env st false
  (ev, st', cacheOf st')

/-- `_get_image_tags`. -/
def getImageTagsM (env : ClientEnv) (st : EngineState) :
    List Event × EngineState × List String :=
  let (ev, st') := checkRefreshImages env st false
  (ev, st', st'.imageTags.getD [])

/-- `_check_image` (the closure inside `_ensure_images`): rebinds `image` to
the part before the first colon; if a tag is present the membership test uses
the bare name, otherwise `name:latest`; imports and reports `True` when the
tested key is not cached. -/
def checkImage (env : ClientEnv) (st : EngineState) (image : String) :
    List Event × EngineState × Bool :=
  let (name, tag) := partitionColon image
  let iName := if tag.isEmpty then name ++ ":latest" else name
  let (ev1, st1, tags) := getImageTagsM env st
  if iName ∈ tags then (ev1, st1, false)
  else (ev1 ++ [.importImage name tag], st1, true)

/-- The generator consumed by `any(...)` in `_ensure_images`: stops at the
first image that triggered an import. -/
def ensureImagesGo (env : ClientEnv) (st : EngineState) :
    List String → List Event × EngineState × Bool
  | [] => ([], st, false)
  | img :: rest =>
    let (ev, st1, fired) := checkImage env st img
    if fired then (ev, st1, true)
    else
      let (ev2, st2, b) := ensureImagesGo env st1 rest
      (ev ++ ev2, st2, b)

/-- `_ensure_images`. -/
def ensureImages (env : ClientEnv) (st : EngineState) (images : List String) :
    List Event × EngineState :=
  let (ev, st1, fired) := ensureImagesGo env st images
  if fired then
    let (ev2, st2) := checkRefreshImages env st1 true
    (ev ++ ev2, st2)
  else (ev, st1)

/-- `_create_named_container`: issue the create call, then add the name to
the cached set (an unloaded cache would raise `AttributeError` after the
call). -/
def createNamedContainer (env : ClientEnv) (st : EngineState) (image name : String)
    (volumes : Option (List String)) (user : Option String) (environment : Option EnvMap) :
    List Event × EngineState × Except PyErr Unit :=
  let args : CreateArgs :=
    { image := image, name := some name, volumes := volumes, user := user,
      environment := environment, entrypoint := none, command := none }
  match env.createErr (some name) with
  | some e => ([.createContainer args], st, .error e)
  | none =>
    match st.containerNames with
    | none => ([.createContainer args], st, .error .attrError)
    | some cache =>
      ([.createContainer args],
       { st with containerNames := some (cacheInsert cache name) }, .ok ())

/-- `_remove_container`: the name is dropped from the cached set first
(`KeyError` when absent), and only then is the runtime remove issued. -/
def removeContainerM (env : ClientEnv) (st : EngineState) (name : String) :
    List Event × EngineState × Except PyErr Unit :=
  match st.containerNames with
  | none => ([], st, .error .attrError)
  | some cache =>
    if name ∈ cache then
      let st1 := { st with containerNames := some (cacheErase cache name) }
      match env.removeErr name with
      | some e => ([.removeContainer name], st1, .error e)
      | none => ([.removeContainer name], st1, .ok ())
    else ([], st, .error .keyError)

/-- `_run_and_dispose`: create a disposable container, then
`try: start; wait; push_container_logs` and `finally: remove_container` (a
failure of the `finally` call replaces the pending exception). -/
def runAndDispose (env : ClientEnv) (st : EngineState) (coreimage : String)
    (entrypoint : Option String) (command : List String) (user : String)
    (volumesFrom : List String) : List Event × EngineState × Except PyErr Unit :=
  let args : CreateArgs :=
    { image := coreimage, name := none, volumes := none, user := some user,
      environment := none, entrypoint := entrypoint, command := some command }
  match env.createErr none with
  | some e => ([.createContainer args], st, .error e)
  | none =>
    let tmp := env.tmpId
    let tryPart : List Event × Option PyErr :=
      match env.startErr tmp with
      | some e => ([.startContainer tmp none (some volumesFrom) none], some e)
      | none =>
        match env.waitErr tmp with
        | some e => ([.startContainer tmp none (some volumesFrom) none, .waitContainer tmp], some e)
        | none =>
          match env.logsErr tmp with
          | some e =>
            ([.startContainer tmp none (some volumesFrom) none, .waitContainer tmp,
              .pushContainerLogs tmp], some e)
          | none =>
            ([.startContainer tmp none (some volumesFrom) none, .waitContainer tmp,
              .pushContainerLogs tmp], none)
    let evAll := [Event.createContainer args] ++ tryPart.1 ++ [.removeContainer tmp]
    match env.removeErr tmp with
    | some e2 => (evAll, st, .error e2)
    | none =>
      match tryPart.2 with
      | some e => (evAll, st, .error e)
      | none => (evAll, st, .ok ())

/-- `_adjust_permissions`. -/
def adjustPermissions (env : ClientEnv) (st : EngineState) (coreimage cName path : String)
    (user : Option String) (permissions : Option String) :
    List Event × EngineState × Except PyErr Unit :=
  if !truthyStr user && !truthyStr permissions then ([], st, .ok ())
  else
    let (evU, stU, rU) :=
      if truthyStr user then
        let u := user.getD ""
        let msg := "Adjusting user for container '" ++ cName ++ "' to '" ++ u ++ "'."
        let (ev1, st1, r1) :=
          runAndDispose env st coreimage none ["chown", "-R", getUserGroup u, path] "root" [cName]
        ([Event.pushLog msg] ++ ev1, st1, r1)
      else ([], st, Except.ok ())
    match rU with
    | .error e => (evU, stU, .error e)
    | .ok () =>
      if truthyStr permissions then
        let p := permissions.getD ""
        let msg := "Adjusting permissions for container '" ++ cName ++ "' to '" ++ p ++ "'."
        let (ev2, st2, r2) :=
          runAndDispose env stU coreimage none ["chmod", "-R", p, path] "root" [cName]
        (evU ++ [Event.pushLog msg] ++ ev2, st2, r2)
      else (evU, stU, .ok ())

/-- `_get_volume_path`: `ValueError` when the alias is absent or maps to a
falsy path. -/
def getVolumePath (m : ContainerMap) (aliasN : String) : Except PyErr String :=
  match m.volumes.lookup aliasN with
  | none => .error (.valueError ("No path found for volume '" ++ aliasN ++ "'."))
  | some p =>
    if p.isEmpty then .error (.valueError ("No path found for volume '" ++ aliasN ++ "'."))
    else .ok p

/-- `_get_or_create_volume`: the attached container is named
`cname(alias, None)`; it is created, started and permission-adjusted only when
that name is not cached, else only an existence log is pushed. -/
def getOrCreateVolume (env : ClientEnv) (st : EngineState) (m : ContainerMap)
    (baseimage coreimage aliasN : String) (user : Option String)
    (permissions : Option String) :
    List Event × EngineState × Except PyErr (String × String) :=
  let cName := m.cnameF aliasN none
  let (ev0, st0, names) := getContainerNamesM env st
  if cName ∈ names then
    (ev0 ++ [.pushLog ("Container '" ++ cName ++ "' exists.")], st0, .ok (aliasN, cName))
  else
    match getVolumePath m aliasN with
    | .error e => (ev0, st0, .error e)
    | .ok path =>
      let (ev1, st1, r1) := createNamedContainer env st0 baseimage cName (some [path]) user none
      match r1 with
      | .error e => (ev0 ++ ev1, st1, .error e)
      | .ok () =>
        match env.startErr cName with
        | some e => (ev0 ++ ev1 ++ [.startContainer cName none none none], st1, .error e)
        | none =>
          let (ev2, st2, r2) := adjustPermissions env st1 coreimage cName path user permissions
          (ev0 ++ ev1 ++ [.startContainer cName none none none] ++ ev2, st2,
           r2.map (fun _ => (aliasN, cName)))

/-! ### Dependency resolver (spec-modelled)

`ContainerDependencyResolver` lives in `dockermap/map/container.py`, which is
not under `src/`; only its caller `client.py` is.  It is therefore modelled
from the spec (§4.1): forward edges come from a container's `uses`, `attaches`
and `links_to` fields (an edge exists when the referenced name is a container
of the map); traversal is depth-first, deduplicates finished containers,
preserves declaration order among siblings, and fails when a container is
revisited while still on the active traversal path.  §4.1 also states that
iterating the *reversed* result acts on prerequisites before dependents, and
§4.3 that dependencies are processed farthest-first; the resolver's output is
therefore ordered with every container preceding its own prerequisites, so
that `reversed(...)` in `create`/`start`/`stop` is prerequisite-first. -/

/-- Modelled from the spec: the direct dependency names of a container —
names out of `uses`, `attaches` and `links_to` that are containers of the
map, in declaration order. -/
def directDeps (m : ContainerMap) (c : String) : List String :=
  match m.containers.lookup c with
  | none => []
  | some a =>
    (a.uses ++ a.attaches ++ a.links_to.map Prod.fst).filter
      (fun n => (m.containers.lookup n).isSome)

/-- Modelled from the spec: the inverse edges used after `update_backward` —
the containers whose direct dependencies include `c`, in map declaration
order. -/
def directDependents (m : ContainerMap) (c : String) : List String :=
  (m.containers.map Prod.fst).filter (fun n => c ∈ directDeps m n)

/-- Modelled from the spec: one depth-first level — process a sibling list
against the active `path` and finished-set `acc`, delegating to `deeper` for
a fresh node's successors and appending the node afterwards (post-order), so
the accumulator lists prerequisites before dependents. -/
def dfsLevel (next : String → List String)
    (deeper : List String → List String → List String → Except Unit (List String)) :
    List String → List String → List String → Except Unit (List String)
  | _, acc, [] => .ok acc
  | path, acc, node :: rest =>
    if node ∈ acc then dfsLevel next deeper path acc rest
    else if node ∈ path then .error ()
    else
      match deeper (node :: path) acc (next node) with
      | .error e => .error e
      | .ok acc' => dfsLevel next deeper path (acc' ++ [node]) rest

/-- Modelled from the spec: the fueled depth-first traversal with cycle
detection via the active path; one unit of fuel per nesting level (the bound
chosen below can never run out on a successful traversal). -/
def dfsVisit (next : String → List String) :
    Nat → List String → List String → List String → Except Unit (List String)
  | 0, _, acc, [] => .ok acc
  | 0, _, _, _ :: _ => .error ()
  | fuel + 1, path, acc, nodes =>
    dfsLevel next (fun p a n => dfsVisit next fuel p a n) path acc nodes

/-- Modelled from the spec: `get_dependencies(container)` — the transitive
dependencies of `container` (itself excluded), ordered so that the reversed
sequence acts on prerequisites before dependents (§4.1, §4.3). -/
def getDependencies (m : ContainerMap) (c : String) : Except Unit (List String) :=
  (dfsVisit (directDeps m) (m.containers.length + 1) [c] [] (directDeps m c)).map List.reverse

/-- Modelled from the spec: the backward resolution used by `stop` —
`update_backward(map)` followed by `get_dependencies(container)`. -/
def getDependenciesBackward (m : ContainerMap) (c : String) : Except Unit (List String) :=
  (dfsVisit (directDependents m) (m.containers.length + 1) [c] []
    (directDependents m c)).map List.reverse

/-! ### Instance creation and start -/

/-- `create_attached_volumes` without its leading `_ensure_images` step: the
`dict(...)` comprehension over the assignment's `attaches` aliases. -/
def createAttachedGo (env : ClientEnv) (m : ContainerMap) (baseimage coreimage : String)
    (user : Option String) (permissions : Option String) :
    EngineState → List String → List Event × EngineState × Except PyErr (List (String × String))
  | st, [] => ([], st, .ok [])
  | st, a :: rest =>
    let (ev1, st1, r1) := getOrCreateVolume env st m baseimage coreimage a user permissions
    match r1 with
    | .error e => (ev1, st1, .error e)
    | .ok pair =>
      let (ev2, st2, r2) := createAttachedGo env m baseimage coreimage user permissions st1 rest
      (ev1 ++ ev2, st2, r2.map (pair :: ·))

/-- `create_attached_volumes`. -/
def createAttachedVolumes (env : ClientEnv) (st : EngineState) (m : ContainerMap)
    (container : String) (baseimage coreimage : String) :
    List Event × EngineState × Except PyErr (List (String × String)) :=
  match getAssignment m container with
  | .error e => ([], st, .error e)
  | .ok asg =>
    let (ev1, st1) := ensureImages env st [baseimage, coreimage]
    let (ev2, st2, r2) :=
      createAttachedGo env m baseimage coreimage asg.user asg.permissions st1 asg.attaches
    (ev1 ++ ev2, st2, r2.map dictOf)

/-- The generator expression resolving each bind entry's volume path inside
`_get_instance_containers`. -/
def bindVolumePaths (m : ContainerMap) : List BindEntry → Except PyErr (List String)
  | [] => .ok []
  | b :: rest =>
    match getVolumePath m b.volume with
    | .error e => .error e
    | .ok p => (bindVolumePaths m rest).map (p :: ·)

/-- `shared_volumes`: `list(chain(volumes or [], shares, bind paths)) or None`. -/
def sharedVolumes (m : ContainerMap) (volumes : Option (List String)) (asg : Assignment) :
    Except PyErr (Option (List String)) :=
  (bindVolumePaths m asg.binds).map fun paths =>
    let l := volumes.getD [] ++ asg.shares ++ paths
    if l.isEmpty then none else some l

/-- The per-instance loop of `_get_instance_containers`: create the instance
when its deterministic name is not cached (the source adds the name to the
cached set a second, redundant time), otherwise push an existence log; a pair
is yielded either way. -/
def instanceLoop (env : ClientEnv) (m : ContainerMap) (container image : String)
    (sharedVols : Option (List String)) (cUser : Option String) (cEnv : Option EnvMap) :
    EngineState → List (Option String) →
      List Event × EngineState × Except PyErr (List (String × String))
  | st, [] => ([], st, .ok [])
  | st, i :: rest =>
    let cName := m.cnameF container i
    let (ev0, st0, names) := getContainerNamesM env st
    if cName ∈ names then
      let (ev', st', r) := instanceLoop env m container image sharedVols cUser cEnv st0 rest
      (ev0 ++ [.pushLog ("Container '" ++ cName ++ "' exists.")] ++ ev', st',
       r.map ((container, cName) :: ·))
    else
      let (evC, stC, rC) := createNamedContainer env st0 image cName sharedVols cUser cEnv
      match rC with
      | .error e => (ev0 ++ evC, stC, .error e)
      | .ok () =>
        let stC' := { stC with containerNames := (stC.containerNames).map (cacheInsert · cName) }
        let (ev', st', r) := instanceLoop env m container image sharedVols cUser cEnv stC' rest
        (ev0 ++ evC ++ ev', st', r.map ((container, cName) :: ·))

/-- `_get_instance_containers` (the generator, consumed eagerly by `create`). -/
def getInstanceContainers (env : ClientEnv) (st : EngineState) (m : ContainerMap)
    (container : String) (instances : List String) (volumes : Option (List String))
    (user : Option String) (environment : Option EnvMap) :
    List Event × EngineState × Except PyErr (List (String × String)) :=
  match getAssignment m container with
  | .error e => ([], st, .error e)
  | .ok asg =>
    let cInstances := effectiveInstances instances asg
    let image := pyOrStr asg.image container
    match sharedVolumes m volumes asg with
    | .error e => ([], st, .error e)
    | .ok sv =>
      let cUser := pyOrOptStr user asg.user
      let cEnv := pyOrOptEnv environment asg.environment
      let (ev1, st1) := ensureImages env st [image]
      let (ev2, st2, r2) := instanceLoop env m container image sv cUser cEnv st1 cInstances
      (ev1 ++ ev2, st2, r2)

/-- `_get_host_binds`: the pairs yielded for one instance — for each
`(alias, rw)` bind entry with a host entry, a single host path is always
paired with the bind spec, while a per-instance dict yields `share.get(i)`
(possibly `None`) for a named instance and nothing for the default one. -/
def hostBindPairs (m : ContainerMap) (i : Option String) :
    List BindEntry → Except PyErr BindsDict
  | [] => .ok []
  | b :: rest =>
    match getVolumePath m b.volume with
    | .error e => .error e
    | .ok path =>
      let spec : BindSpec := { bind := path, ro := !b.readwrite }
      let here : BindsDict :=
        match m.host.lookup b.volume with
        | none => []
        | some (.single v) => [(some v, spec)]
        | some (.perInstance d) =>
          match i with
          | none => []
          | some inst => [(d.lookup inst, spec)]
      (hostBindPairs m i rest).map (here ++ ·)

/-- The per-instance loop of `_start_instance_containers`. -/
def startLoop (env : ClientEnv) (m : ContainerMap) (container : String) (binds : BindsDict)
    (cVolumesFrom : Option (List String)) (cLinks : Option (List (String × String)))
    (asg : Assignment) :
    EngineState → List (Option String) → List Event × EngineState × Except PyErr Unit
  | st, [] => ([], st, .ok ())
  | st, i :: rest =>
    let cName := m.cnameF container i
    match hostBindPairs m i asg.binds with
    | .error e => ([], st, .error e)
    | .ok pairs =>
      let hostBinds := dictUpdate (dictOf pairs) binds
      let cBinds := if hostBinds.isEmpty then none else some hostBinds
      let ev := [Event.startContainer cName cBinds cVolumesFrom cLinks]
      match env.startErr cName with
      | some e => (ev, st, .error e)
      | none =>
        let (ev', st', r) :=
          startLoop env m container binds cVolumesFrom cLinks asg st rest
        (ev ++ ev', st', r)

/-- `_start_instance_containers`. -/
def startInstanceContainers (env : ClientEnv) (st : EngineState) (m : ContainerMap)
    (container : String) (instances : List String) (binds : BindsDict)
    (volumesFrom : List String) : List Event × EngineState × Except PyErr Unit :=
  match getAssignment m container with
  | .error e => ([], st, .error e)
  | .ok asg =>
    let cInstances := effectiveInstances instances asg
    let usedVolumes := (asg.uses ++ asg.attaches).map (fun n => m.cnameF n none)
    let cVolumesFrom :=
      let l := volumesFrom ++ usedVolumes
      if l.isEmpty then none else some l
    let cLinks :=
      let l := dictOf (asg.links_to.map (fun p => (m.cnameF p.1 none, p.2)))
      if l.isEmpty then none else some l
    startLoop env m container binds cVolumesFrom cLinks asg st cInstances

/-! ### Public operations -/

/-- `_create_main_container`: optionally create the attached volumes, then
the target's instances with the caller's popped overrides. -/
def createMain (env : ClientEnv) (st : EngineState) (m : ContainerMap) (container : String)
    (instances : List String) (autocreateAttached : Bool) (baseimage : String)
    (volumes : Option (List String)) (user : Option String) (environment : Option EnvMap) :
    List Event × EngineState × Except PyErr (List (String × String)) :=
  if autocreateAttached then
    let (ev1, st1, r1) := createAttachedVolumes env st m container baseimage DEFAULT_COREIMAGE
    match r1 with
    | .error e => (ev1, st1, .error e)
    | .ok _ =>
      let (ev2, st2, r2) :=
        getInstanceContainers env st1 m container instances volumes user environment
      (ev1 ++ ev2, st2, r2)
  else getInstanceContainers env st m container instances volumes user environment

/-- The list comprehension over `reversed(dependencies)` in `create`: each
dependency is created with its own defaults (no overrides). -/
def createDepLoop (env : ClientEnv) (m : ContainerMap) (autocreateAttached : Bool)
    (baseimage : String) :
    EngineState → List String →
      List Event × EngineState × Except PyErr (List (List (String × String)))
  | st, [] => ([], st, .ok [])
  | st, d :: rest =>
    let (ev1, st1, r1) :=
      if autocreateAttached then
        let (evA, stA, rA) := createAttachedVolumes env st m d baseimage DEFAULT_COREIMAGE
        match rA with
        | .error e => (evA, stA, .error e)
        | .ok _ =>
          let (evI, stI, rI) := getInstanceContainers env stA m d [] none none none
          (evA ++ evI, stI, rI)
      else getInstanceContainers env st m d [] none none none
    match r1 with
    | .error e => (ev1, st1, .error e)
    | .ok ps =>
      let (ev2, st2, r2) := createDepLoop env m autocreateAttached baseimage st1 rest
      (ev1 ++ ev2, st2, r2.map (ps :: ·))

/-- `create`: with `autocreate_dependencies`, resolve the chain, create every
dependency over `reversed(dependencies)`, then the target; the returned pairs
are the dependencies' followed by the target's. -/
def createM (env : ClientEnv) (st : EngineState) (m : ContainerMap) (container : String)
    (instances : List String) (autocreateDependencies autocreateAttached : Bool)
    (baseimage : String) (volumes : Option (List String)) (user : Option String)
    (environment : Option EnvMap) :
    List Event × EngineState × Except PyErr (List (String × String)) :=
  if autocreateDependencies then
    match getDependencies m container with
    | .error _ => ([], st, .error .cyclicDependency)
    | .ok deps =>
      let (ev1, st1, r1) := createDepLoop env m autocreateAttached baseimage st deps.reverse
      match r1 with
      | .error e => (ev1, st1, .error e)
      | .ok pls =>
        let (ev2, st2, r2) :=
          createMain env st1 m container instances autocreateAttached baseimage
            volumes user environment
        (ev1 ++ ev2, st2, r2.map (fun ps => pls.flatten ++ ps))
  else
    createMain env st m container instances autocreateAttached baseimage
      volumes user environment

/-- The loop over `reversed(dependencies)` in `start`: each dependency is
started with its own defaults (no binds or volumes-from overrides). -/
def startDepLoop (env : ClientEnv) (m : ContainerMap) :
    EngineState → List String → List Event × EngineState × Except PyErr Unit
  | st, [] => ([], st, .ok ())
  | st, d :: rest =>
    let (ev1, st1, r1) := startInstanceContainers env st m d [] [] []
    match r1 with
    | .error e => (ev1, st1, .error e)
    | .ok () =>
      let (ev2, st2, r2) := startDepLoop env m st1 rest
      (ev1 ++ ev2, st2, r2)

/-- `start`. -/
def startM (env : ClientEnv) (st : EngineState) (m : ContainerMap) (container : String)
    (instances : List String) (autostartDependencies : Bool) (binds : BindsDict)
    (volumesFrom : List String) : List Event × EngineState × Except PyErr Unit :=
  if autostartDependencies then
    match getDependencies m container with
    | .error _ => ([], st, .error .cyclicDependency)
    | .ok deps =>
      let (ev1, st1, r1) := startDepLoop env m st deps.reverse
      match r1 with
      | .error e => (ev1, st1, .error e)
      | .ok () =>
        let (ev2, st2, r2) :=
          startInstanceContainers env st1 m container instances binds volumesFrom
        (ev1 ++ ev2, st2, r2)
  else startInstanceContainers env st m container instances binds volumesFrom

/-- The effective instance list of `_stop_container`:
`c_instances or self._get(c_name).instances or [None]`, where the assignment
lookup is short-circuited away when explicit instances were given. -/
def stopEffInstances (m : ContainerMap) (cName : String) (cInstances : List String) :
    Except PyErr (List (Option String)) :=
  if cInstances.isEmpty then
    (getAssignment m cName).map fun asg =>
      if asg.instances.isEmpty then [none] else asg.instances.map some
  else .ok (cInstances.map some)

/-- The per-instance loop of `_stop_container`: every stop failure is caught;
a 404 is silent, any other status only pushes a log. -/
def stopLoop (env : ClientEnv) (m : ContainerMap) (cName : String) :
    List (Option String) → List Event
  | [] => []
  | i :: rest =>
    let lcName := m.cnameF cName i
    let ev :=
      match env.stopErr lcName with
      | none => [Event.stopContainer lcName]
      | some status =>
        if status = 404 then [Event.stopContainer lcName]
        else [Event.stopContainer lcName,
              .pushLog ("Failed to stop container '" ++ apiErrStr status ++ "'.")]
    ev ++ stopLoop env m cName rest

/-- `_stop_container`. -/
def stopContainerM (env : ClientEnv) (m : ContainerMap) (cName : String)
    (cInstances : List String) : List Event × Except PyErr Unit :=
  match stopEffInstances m cName cInstances with
  | .error e => ([], .error e)
  | .ok l => (stopLoop env m cName l, .ok ())

/-- The loop over `reversed(dependencies)` in `stop`. -/
def stopDepLoop (env : ClientEnv) (m : ContainerMap) :
    List String → List Event × Except PyErr Unit
  | [] => ([], .ok ())
  | d :: rest =>
    let (ev1, r1) := stopContainerM env m d []
    match r1 with
    | .error e => (ev1, .error e)
    | .ok () =>
      let (ev2, r2) := stopDepLoop env m rest
      (ev1 ++ ev2, r2)

/-- `stop` (with no extra stop kwargs): with `autostop_dependent`, resolve the
backward order and stop every dependent first, then the target's instances. -/
def stopM (env : ClientEnv) (m : ContainerMap) (container : String)
    (instances : List String) (autostopDependent : Bool) :
    List Event × Except PyErr Unit :=
  if autostopDependent then
    match getDependenciesBackward m container with
    | .error _ => ([], .error .cyclicDependency)
    | .ok deps =>
      let (ev1, r1) := stopDepLoop env m deps.reverse
      match r1 with
      | .error e => (ev1, .error e)
      | .ok () =>
        let (ev2, r2) := stopContainerM env m container instances
        (ev1 ++ ev2, r2)
  else stopContainerM env m container instances

/-- The per-instance loop of `remove`. -/
def removeLoop (env : ClientEnv) (m : ContainerMap) (container : String) :
    EngineState → List (Option String) → List Event × EngineState × Except PyErr Unit
  | st, [] => ([], st, .ok ())
  | st, i :: rest =>
    let (ev1, st1, r1) := removeContainerM env st (m.cnameF container i)
    match r1 with
    | .error e => (ev1, st1, .error e)
    | .ok () =>
      let (ev2, st2, r2) := removeLoop env m container st1 rest
      (ev1 ++ ev2, st2, r2)

/-- `remove`: `c_instances = instances or [None]` — no fallback to the
assignment's declared instance list. -/
def removeM (env : ClientEnv) (st : EngineState) (m : ContainerMap) (container : String)
    (instances : List String) : List Event × EngineState × Except PyErr Unit :=
  let cInstances := if instances.isEmpty then [none] else instances.map some
  removeLoop env m container st cInstances

/-! ### Derived notions used by the theorems -/

/-- Whether an event is a `create_container` call for the given name. -/
def isNamedCreate (n : String) : Event → Bool
  | .createContainer ca => ca.name = some n
  | _ => false

/-- How many `create_container` calls for the given name a trace holds. -/
def countCreate (n : String) (ev : List Event) : Nat :=
  (ev.filter (isNamedCreate n)).length

/-- The (container, instance-name) pairs `_get_instance_containers` yields on
success for a container and explicit-instances argument. -/
def instancePairs (m : ContainerMap) (container : String) (instances : List String) :
    List (String × String) :=
  match m.containers.lookup container with
  | none => []
  | some asg => (effectiveInstances instances asg).map (fun i => (container, m.cnameF container i))

/-- The membership test `_check_image` performs against the cached tag set:
an untagged reference is checked as `name:latest`, a tagged one by its bare
name. -/
def imageMissing (tags : List String) (image : String) : Bool :=
  let (name, tag) := partitionColon image
  let iName := if tag.isEmpty then name ++ ":latest" else name
  decide (iName ∉ tags)

/-- The `import_image` event `_check_image` issues for an image reference. -/
def importEventOf (image : String) : Event :=
  let (name, tag) := partitionColon image
  .importImage name tag

/-- Whether an event is an `import_image` call. -/
def isImportEvent : Event → Bool
  | .importImage _ _ => true
  | _ => false

/-- The events `_stop_container` emits for one instance: the stop call, then
nothing on success or 404, or one failure log for any other status. -/
def stopSegment (env : ClientEnv) (m : ContainerMap) (cName : String) (i : Option String) :
    List Event :=
  let lcName := m.cnameF cName i
  match env.stopErr lcName with
  | none => [Event.stopContainer lcName]
  | some status =>
    if status = 404 then [Event.stopContainer lcName]
    else [Event.stopContainer lcName,
          .pushLog ("Failed to stop container '" ++ apiErrStr status ++ "'.")]

/-- Amended claim C4's host-bind derivation, following the amended spec
wording: each `(alias, rw)` bind entry contributes `{container path,
read-only flag}`; a single host value applies to every instance; a
per-instance host table emits nothing for the default instance and, for a
named instance, always emits a bind whose host path is the table's entry for
that instance or `None` when the instance has no explicit host location. -/
def specHostBinds (m : ContainerMap) (asg : Assignment) (i : Option String) : BindsDict :=
  asg.binds.flatMap fun b =>
    let spec : BindSpec := { bind := (m.volumes.lookup b.volume).getD "", ro := !b.readwrite }
    match m.host.lookup b.volume with
    | none => []
    | some (.single v) => [(some v, spec)]
    | some (.perInstance d) =>
      match i with
      | none => []
      | some inst => [(d.lookup inst, spec)]

/-- The dependency-phase trace of `create`: the runtime calls issued before
any of the caller's per-call overrides can influence execution. -/
def createDepPhase (env : ClientEnv) (st : EngineState) (m : ContainerMap)
    (container : String) (autocreateAttached : Bool) (baseimage : String) : List Event :=
  match getDependencies m container with
  | .error _ => []
  | .ok deps => (createDepLoop env m autocreateAttached baseimage st deps.reverse).1

/-- The dependency-phase trace of `start`. -/
def startDepPhase (env : ClientEnv) (st : EngineState) (m : ContainerMap)
    (container : String) : List Event :=
  match getDependencies m container with
  | .error _ => []
  | .ok deps => (startDepLoop env m st deps.reverse).1

/-- The cached container-name set only grows. -/
def cacheMono (st st' : EngineState) : Prop :=
  ∀ n, n ∈ cacheOf st → n ∈ cacheOf st'

/-- Every named `create_container` call in the trace is for a name that was
not in the cached set when the run began. -/
def freshNamedCreates (st : EngineState) (ev : List Event) : Prop :=
  ∀ ca n, Event.createContainer ca ∈ ev → ca.name = some n → n ∉ cacheOf st

/-- On success, every returned instance name is in the final cached set. -/
def pairsCached (st' : EngineState) (r : Except PyErr (List (String × String))) : Prop :=
  ∀ ps, r = .ok ps → ∀ p ∈ ps, p.2 ∈ cacheOf st'

/-- In the list, every element's direct successors appear strictly before
it. -/
def depOrdered (next : String → List String) (l : List String) : Prop :=
  ∀ l1 x l2, l = l1 ++ x :: l2 → ∀ d ∈ next x, d ∈ l1

/-! ### Concrete fixtures for witnesses and counterexamples -/

/-- An assignment with only the relational fields populated. -/
def mkAsg (uses attaches : List String) (links : List (String × String))
    (insts : List String) : Assignment :=
  { image := none, instances := insts, shares := [], binds := [], user := none,
    environment := none, permissions := none, links_to := links, uses := uses,
    attaches := attaches }

/-- The instance-qualified naming convention used by the fixtures. -/
def cnameFix (c : String) (i : Option String) : String :=
  match i with
  | none => c
  | some s => c ++ "." ++ s

/-- The spec §8 scenario map: `db` attaches `data`; `web` uses and links to
`db`. -/
def mW : ContainerMap :=
  { containers := [("db", mkAsg [] ["data"] [] []), ("web", mkAsg ["db"] [] [("db", "database")] [])],
    volumes := [("data", "/data")],
    host := [],
    cnameF := cnameFix }

/-- A fully successful runtime oracle whose image cache already holds every
image the fixtures use. -/
def envW : ClientEnv :=
  { containerNames := [],
    imageTags := fun _ =>
      ["default-base:latest", "default-core:latest", "db:latest", "web:latest", "c:latest"],
    tmpId := "tmp0", createErr := fun _ => none, startErr := fun _ => none,
    stopErr := fun _ => none, removeErr := fun _ => none, waitErr := fun _ => none,
    logsErr := fun _ => none }

/-- The empty engine state (nothing cached yet). -/
def st0 : EngineState := { containerNames := none, imageTags := none, imageCalls := 0 }

/-- A state whose container-name cache is loaded and holds `n1`. -/
def stLoaded : EngineState :=
  { containerNames := some ["n1"], imageTags := some [], imageCalls := 0 }

/-- An oracle whose `remove_container` always fails with a 500 `APIError`. -/
def envRemoveFail : ClientEnv :=
  { envW with removeErr := fun _ => some (.apiError 500) }

/-- An oracle whose `start` always fails. -/
def envStartFail : ClientEnv :=
  { envW with startErr := fun _ => some (.apiError 500) }

/-- An oracle whose image-tag listing is always empty. -/
def envNoImages : ClientEnv :=
  { envW with imageTags := fun _ => [] }

/-- A state whose image-tag cache is loaded and empty. -/
def stImgEmpty : EngineState :=
  { containerNames := some [], imageTags := some [], imageCalls := 0 }

/-- The claim C4 fixture: container `c` binds volume alias `v`, whose host
location is per-instance and only names instance `i2`. -/
def mC4 : ContainerMap :=
  { containers := [("c", { mkAsg [] [] [] [] with binds := [{ volume := "v", readwrite := true }] })],
    volumes := [("v", "/data")],
    host := [("v", .perInstance [("i2", "/h")])],
    cnameF := cnameFix }

/-- A second C4 fixture: `c` binds aliases `v` (per-instance host table
naming only `i2`) and `w` (single host path). -/
def mC4b : ContainerMap :=
  { containers := [("c",
      { mkAsg [] [] [] [] with
          binds := [{ volume := "v", readwrite := true },
                    { volume := "w", readwrite := false }] })],
    volumes := [("v", "/data"), ("w", "/logs")],
    host := [("v", .perInstance [("i2", "/h")]), ("w", .single "/hw")],
    cnameF := cnameFix }

/-- An oracle for the stop fixtures: stopping `web.bad` fails with 500,
stopping `web.gone` with 404, everything else succeeds. -/
def envStopMixed : ClientEnv :=
  { envW with stopErr := fun n =>
      if n = "web.bad" then some 500 else if n = "web.gone" then some 404 else none }

/-- A map whose container `db` lists the alias `data` twice in `attaches`. -/
def mDup : ContainerMap :=
  { containers := [("db", mkAsg [] ["data", "data"] [] [])],
    volumes := [("data", "/data")],
    host := [],
    cnameF := cnameFix }

/-- A map whose container `web` declares the instances `bad`, `gone` and
`ok`. -/
def mStop : ContainerMap :=
  { containers := [("web", mkAsg [] [] [] ["bad", "gone", "ok"])],
    volumes := [], host := [], cnameF := cnameFix }

/-- An oracle whose `create_container` fails only for the name `web`. -/
def envFailWeb : ClientEnv :=
  { envW with createErr := fun n => if n = some "web" then some (.apiError 500) else none }

/-- A state whose container-name cache is loaded with `web` and `web.bad`. -/
def stWebCached : EngineState :=
  { containerNames := some ["web", "web.bad"], imageTags := some [], imageCalls := 0 }

/-! ## Theorems -/

/-- C9: for every permission-adjustment run, once the disposable helper
container has been created, `_run_and_dispose` issues the
`remove_container` call for it before returning — whatever the outcomes of
the start, wait and log-forwarding steps (the `try/finally` block). -/
theorem runAndDispose_disposes (env : ClientEnv) (st : EngineState) (coreimage : String)
    (entrypoint : Option String) (command : List String) (user : String)
    (volumesFrom : List String) (h : env.createErr none = none) :
    Event.removeContainer env.tmpId ∈
      (runAndDispose env st coreimage entrypoint command user volumesFrom).1 := by
  unfold runAndDispose
  rw [h]
  cases hs : env.startErr env.tmpId <;>
    cases hw : env.waitErr env.tmpId <;>
      cases hl : env.logsErr env.tmpId <;>
        cases hr : env.removeErr env.tmpId <;>
          simp [hs, hw, hl, hr]

/-- Witness for C9: with a failing `start`, the disposable container is
still removed. -/
theorem runAndDispose_disposes_witness :
    Event.removeContainer "tmp0" ∈
      (runAndDispose envStartFail st0 "core" none ["chmod"] "root" ["c"]).1 :=
  runAndDispose_disposes envStartFail st0 "core" none ["chmod"] "root" ["c"] rfl

/-- C10: `remove` with unspecified instances issues exactly one runtime
remove, for the default instance name `cname(container, None)`; the map's
assignment (and hence its declared instance list) is never consulted, the
theorem holding for every `ContainerMap`. -/
theorem remove_unspecified_targets_default (env : ClientEnv) (st : EngineState)
    (m : ContainerMap) (container : String) (cache : List String)
    (h1 : st.containerNames = some cache)
    (h2 : m.cnameF container none ∈ cache)
    (h3 : env.removeErr (m.cnameF container none) = none) :
    removeM env st m container [] =
      ([Event.removeContainer (m.cnameF container none)],
       { st with containerNames := some (cacheErase cache (m.cnameF container none)) },
       .ok ()) := by
  simp [removeM, removeLoop, removeContainerM, h1, h2, h3]

/-- Witness for C10: on a map whose container `web` declares the instances
`bad`, `gone` and `ok`, `remove("web")` still removes only the default
instance `web`. -/
theorem remove_unspecified_targets_default_witness :
    removeM envW stWebCached mStop "web" [] =
      ([Event.removeContainer "web"],
       { containerNames := some ["web.bad"], imageTags := some [], imageCalls := 0 },
       .ok ()) := by
  have h := remove_unspecified_targets_default envW stWebCached mStop "web"
    ["web", "web.bad"] rfl (by decide) rfl
  simpa [stWebCached, mStop, cnameFix, cacheErase] using h

/-- Counterexample to C6: when the runtime `remove_container` call fails,
the cached name set has already been mutated — the name was dropped before
the runtime call, so the cache is *not* unchanged as the claim states. -/
theorem removeContainer_mutates_cache_on_failed_remove :
    (removeContainerM envRemoveFail stLoaded "n1").2.2 = .error (.apiError 500) ∧
    (removeContainerM envRemoveFail stLoaded "n1").2.1.containerNames
      ≠ stLoaded.containerNames := by
  constructor
  · rfl
  · decide

/-- C6 (amended): a name is added to the cached container-name set only
after a successful `create_container` call (a failed create leaves the state
unchanged), but a name is removed from the cached set *before* the runtime
`remove_container` call is issued, so the cache has already dropped the name
whether or not the runtime remove succeeds. -/
theorem cache_mutation_order (env : ClientEnv) (st : EngineState) (name image : String)
    (volumes : Option (List String)) (user : Option String) (environment : Option EnvMap)
    (cache : List String) (h : st.containerNames = some cache) :
    (env.createErr (some name) = none →
      (createNamedContainer env st image name volumes user environment).2.1.containerNames
        = some (cacheInsert cache name)) ∧
    (∀ err, env.createErr (some name) = some err →
      (createNamedContainer env st image name volumes user environment).2.1 = st) ∧
    (name ∈ cache →
      (removeContainerM env st name).2.1.containerNames = some (cacheErase cache name)) := by
  refine ⟨fun hc => ?_, fun err hc => ?_, fun hm => ?_⟩
  · unfold createNamedContainer
    rw [hc, h]
  · unfold createNamedContainer
    rw [hc]
  · unfold removeContainerM
    rw [h]
    simp only [hm, if_true]
    cases env.removeErr name <;> rfl

/-- Witness for C6 (amended): a successful create appends the name, and a
failing runtime remove still leaves the cache without the removed name. -/
theorem cache_mutation_order_witness :
    (createNamedContainer envW stLoaded "img" "x" none none none).2.1.containerNames
      = some ["n1", "x"] ∧
    (removeContainerM envRemoveFail stLoaded "n1").2.1.containerNames = some [] := by
  constructor
  · have h := (cache_mutation_order envW stLoaded "x" "img" none none none ["n1"] rfl).1 rfl
    simpa [cacheInsert] using h
  · have h := (cache_mutation_order envRemoveFail stLoaded "n1" "img" none none none
      ["n1"] rfl).2.2 (by decide)
    simpa [cacheErase] using h

/-- The generator consumed by `any(...)` in `_ensure_images`, on a loaded
image cache: it emits exactly one import — for the first missing image — and
stops there. -/
theorem ensureImagesGo_first_missing (env : ClientEnv) (st : EngineState)
    (tags : List String) (images : List String) (h : st.imageTags = some tags) :
    ensureImagesGo env st images =
      ((match images.find? (imageMissing tags) with
        | none => []
        | some img => [importEventOf img]),
       st, (images.find? (imageMissing tags)).isSome) := by
  induction images with
  | nil => simp [ensureImagesGo]
  | cons img rest ih =>
    rcases hp : partitionColon img with ⟨name, tag⟩
    by_cases hmem : (if tag.isEmpty then name ++ ":latest" else name) ∈ tags
    · have hmiss : imageMissing tags img = false := by
        simp [imageMissing, hp, hmem]
      simp [ensureImagesGo, checkImage, getImageTagsM, checkRefreshImages, h, hp, hmem,
        List.find?, hmiss, ih]
    · have hmiss : imageMissing tags img = true := by
        simp [imageMissing, hp, hmem]
      simp [ensureImagesGo, checkImage, getImageTagsM, checkRefreshImages, h, hp, hmem,
        List.find?, hmiss, importEventOf]

/-- C3 (amended): on a loaded image cache, the image-ensuring step imports
only the *first* image of the list that the cache reports missing — the
presence check short-circuits, so later images are neither checked nor
imported — and forces a cache refresh iff that import occurred. -/
theorem ensureImages_first_missing (env : ClientEnv) (st : EngineState)
    (tags : List String) (images : List String) (h : st.imageTags = some tags) :
    ensureImages env st images =
      match images.find? (imageMissing tags) with
      | none => ([], st)
      | some img =>
        ([importEventOf img, .getImageTags],
         { st with imageTags := some (env.imageTags st.imageCalls),
                   imageCalls := st.imageCalls + 1 }) := by
  unfold ensureImages
  rw [ensureImagesGo_first_missing env st tags images h]
  cases images.find? (imageMissing tags) <;> simp [checkRefreshImages]

/-- Witness for C3 (amended): with an empty loaded cache, ensuring
`["imga", "imgb"]` imports `imga` and refreshes once. -/
theorem ensureImages_first_missing_witness :
    ensureImages envNoImages stImgEmpty ["imga", "imgb"] =
      ([Event.importImage "imga" "", Event.getImageTags],
       { containerNames := some [], imageTags := some [], imageCalls := 1 }) := by
  have h := ensureImages_first_missing envNoImages stImgEmpty [] ["imga", "imgb"] rfl
  rw [h]
  decide

/-- Counterexample to C3: with an empty loaded cache, `imgb` is reported
missing by the cache (checked as `imgb:latest`), yet ensuring
`["imga", "imgb"]` issues no `import_image` call for it — the `any(...)`
generator short-circuits after importing `imga` — refuting the claimed
"import iff missing" equivalence. -/
theorem ensureImages_not_iff_missing :
    imageMissing [] "imgb" = true ∧
    Event.importImage "imga" "" ∈ (ensureImages envNoImages stImgEmpty ["imga", "imgb"]).1 ∧
    Event.importImage "imgb" "" ∉ (ensureImages envNoImages stImgEmpty ["imga", "imgb"]).1 := by
  refine ⟨rfl, ?_, ?_⟩ <;> decide

/-! ### Resolver lemmas -/

theorem lookup_isSome_of_mem_keys {β : Type} (l : List (String × β)) (a : String)
    (h : a ∈ l.map Prod.fst) : (l.lookup a).isSome := by
  induction l with
  | nil => simp at h
  | cons p rest ih =>
    rcases p with ⟨k, v⟩
    by_cases hk : k = a
    · simp [List.lookup, hk]
    · have ha : a ∈ rest.map Prod.fst := by
        rcases List.mem_map.mp h with ⟨q, hq, hfst⟩
        rcases List.mem_cons.mp hq with rfl | hq'
        · exact absurd hfst hk
        · exact List.mem_map.mpr ⟨q, hq', hfst⟩
      have hba : (a == k) = false := beq_eq_false_iff_ne.mpr (fun he => hk he.symm)
      simp only [List.lookup, hba]
      exact ih ha

theorem dfsLevel_extends (next : String → List String)
    (deeper : List String → List String → List String → Except Unit (List String))
    (hdeeper : ∀ path acc nodes res, deeper path acc nodes = .ok res → ∃ t, res = acc ++ t) :
    ∀ nodes path acc res, dfsLevel next deeper path acc nodes = .ok res →
      ∃ t, res = acc ++ t := by
  intro nodes
  induction nodes with
  | nil =>
    intro path acc res h
    simp only [dfsLevel] at h
    exact ⟨[], by simp [← Except.ok.inj h]⟩
  | cons node rest ih =>
    intro path acc res h
    simp only [dfsLevel] at h
    by_cases hmem : node ∈ acc
    · rw [if_pos hmem] at h
      exact ih path acc res h
    · rw [if_neg hmem] at h
      by_cases hpath : node ∈ path
      · rw [if_pos hpath] at h
        simp at h
      · rw [if_neg hpath] at h
        cases hdeep : deeper (node :: path) acc (next node) with
        | error e => rw [hdeep] at h; simp at h
        | ok acc' =>
          rw [hdeep] at h
          obtain ⟨t2, rfl⟩ := ih path (acc' ++ [node]) res h
          obtain ⟨t1, rfl⟩ := hdeeper _ _ _ _ hdeep
          exact ⟨t1 ++ [node] ++ t2, by simp⟩

theorem dfsVisit_extends (next : String → List String) :
    ∀ fuel path acc nodes res, dfsVisit next fuel path acc nodes = .ok res →
      ∃ t, res = acc ++ t := by
  intro fuel
  induction fuel with
  | zero =>
    intro path acc nodes res h
    cases nodes with
    | nil =>
      simp only [dfsVisit] at h
      exact ⟨[], by simp [← Except.ok.inj h]⟩
    | cons a l => simp [dfsVisit] at h
  | succ fuel ih =>
    intro path acc nodes res h
    simp only [dfsVisit] at h
    exact dfsLevel_extends next _ (fun p a n r hr => ih p a n r hr) nodes path acc res h

theorem dfsLevel_nodes_mem (next : String → List String)
    (deeper : List String → List String → List String → Except Unit (List String))
    (hdeeper : ∀ path acc nodes res, deeper path acc nodes = .ok res → ∃ t, res = acc ++ t) :
    ∀ nodes path acc res, dfsLevel next deeper path acc nodes = .ok res →
      ∀ n ∈ nodes, n ∈ res := by
  intro nodes
  induction nodes with
  | nil => intro path acc res h n hn; simp at hn
  | cons node rest ih =>
    intro path acc res h n hn
    simp only [dfsLevel] at h
    by_cases hmem : node ∈ acc
    · rw [if_pos hmem] at h
      rcases List.mem_cons.mp hn with rfl | hn'
      · obtain ⟨t, rfl⟩ := dfsLevel_extends next deeper hdeeper rest path acc res h
        exact List.mem_append_left _ hmem
      · exact ih path acc res h n hn'
    · rw [if_neg hmem] at h
      by_cases hpath : node ∈ path
      · rw [if_pos hpath] at h; simp at h
      · rw [if_neg hpath] at h
        cases hdeep : deeper (node :: path) acc (next node) with
        | error e => rw [hdeep] at h; simp at h
        | ok acc' =>
          rw [hdeep] at h
          rcases List.mem_cons.mp hn with rfl | hn'
          · obtain ⟨t, rfl⟩ :=
              dfsLevel_extends next deeper hdeeper rest path (acc' ++ [n]) res h
            exact List.mem_append_left _ (by simp)
          · exact ih path (acc' ++ [node]) res h n hn'

theorem dfsVisit_nodes_mem (next : String → List String) :
    ∀ fuel path acc nodes res, dfsVisit next fuel path acc nodes = .ok res →
      ∀ n ∈ nodes, n ∈ res := by
  intro fuel
  cases fuel with
  | zero =>
    intro path acc nodes res h n hn
    cases nodes with
    | nil => simp at hn
    | cons a l => simp [dfsVisit] at h
  | succ fuel =>
    intro path acc nodes res h
    simp only [dfsVisit] at h
    exact dfsLevel_nodes_mem next _
      (fun p a nn r hr => dfsVisit_extends next fuel p a nn r hr) nodes path acc res h

theorem dfsLevel_pres (next : String → List String) (P : String → Prop)
    (hnext : ∀ y d, d ∈ next y → P d)
    (deeper : List String → List String → List String → Except Unit (List String))
    (hdeeper : ∀ path acc nodes res, deeper path acc nodes = .ok res →
      (∀ a ∈ acc, P a) → (∀ n ∈ nodes, P n) → ∀ x ∈ res, P x) :
    ∀ nodes path acc res, dfsLevel next deeper path acc nodes = .ok res →
      (∀ a ∈ acc, P a) → (∀ n ∈ nodes, P n) → ∀ x ∈ res, P x := by
  intro nodes
  induction nodes with
  | nil =>
    intro path acc res h hacc _
    simp only [dfsLevel] at h
    obtain rfl := Except.ok.inj h
    exact hacc
  | cons node rest ih =>
    intro path acc res h hacc hnodes
    simp only [dfsLevel] at h
    by_cases hmem : node ∈ acc
    · rw [if_pos hmem] at h
      exact ih path acc res h hacc (fun n hn => hnodes n (List.mem_cons_of_mem _ hn))
    · rw [if_neg hmem] at h
      by_cases hpath : node ∈ path
      · rw [if_pos hpath] at h; simp at h
      · rw [if_neg hpath] at h
        cases hdeep : deeper (node :: path) acc (next node) with
        | error e => rw [hdeep] at h; simp at h
        | ok acc' =>
          rw [hdeep] at h
          have hacc' : ∀ x ∈ acc', P x :=
            hdeeper _ _ _ _ hdeep hacc (fun d hd => hnext node d hd)
          refine ih path (acc' ++ [node]) res h (fun a ha => ?_)
            (fun n hn => hnodes n (List.mem_cons_of_mem _ hn))
          rcases List.mem_append.mp ha with ha' | ha'
          · exact hacc' a ha'
          · simp at ha'
            subst ha'
            exact hnodes _ (by simp)

theorem dfsVisit_pres (next : String → List String) (P : String → Prop)
    (hnext : ∀ y d, d ∈ next y → P d) :
    ∀ fuel path acc nodes res, dfsVisit next fuel path acc nodes = .ok res →
      (∀ a ∈ acc, P a) → (∀ n ∈ nodes, P n) → ∀ x ∈ res, P x := by
  intro fuel
  induction fuel with
  | zero =>
    intro path acc nodes res h hacc hnodes
    cases nodes with
    | nil =>
      simp only [dfsVisit] at h
      obtain rfl := Except.ok.inj h
      exact hacc
    | cons a l => simp [dfsVisit] at h
  | succ fuel ih =>
    intro path acc nodes res h
    simp only [dfsVisit] at h
    exact dfsLevel_pres next P hnext _ (fun p a n r hr => ih p a n r hr) nodes path acc res h

theorem append_singleton_split {α : Type} (l l1 l2 : List α) (a x : α)
    (h : l ++ [a] = l1 ++ x :: l2) :
    (l1 = l ∧ x = a ∧ l2 = []) ∨ ∃ l2', l2 = l2' ++ [a] ∧ l = l1 ++ x :: l2' := by
  rcases List.eq_nil_or_concat l2 with rfl | ⟨l2', b, rfl⟩
  · left
    have h' : l ++ [a] = l1 ++ [x] := h
    obtain ⟨h1, h2⟩ := List.append_inj' h' rfl
    exact ⟨h1.symm, (List.cons.inj h2).1.symm, rfl⟩
  · right
    have h' : l ++ [a] = (l1 ++ x :: l2') ++ [b] := by
      simpa [List.concat_eq_append, List.append_assoc] using h
    obtain ⟨h1, h2⟩ := List.append_inj' h' rfl
    have hab : a = b := (List.cons.inj h2).1
    exact ⟨l2', by simp [List.concat_eq_append, hab], h1⟩

theorem depOrdered_nil (next : String → List String) : depOrdered next [] := by
  intro l1 x l2 heq
  exact absurd heq.symm (List.append_ne_nil_of_right_ne_nil l1 (by simp))

theorem depOrdered_append (next : String → List String) (l : List String) (a : String)
    (h1 : depOrdered next l) (h2 : ∀ d ∈ next a, d ∈ l) :
    depOrdered next (l ++ [a]) := by
  intro l1 x l2 heq d hd
  rcases append_singleton_split l l1 l2 a x heq with ⟨rfl, rfl, rfl⟩ | ⟨l2', _, hsplit⟩
  · exact h2 d hd
  · exact h1 l1 x l2' hsplit d hd

theorem dfsLevel_ordered (next : String → List String)
    (deeper : List String → List String → List String → Except Unit (List String))
    (hdeeper_ord : ∀ path acc nodes res, deeper path acc nodes = .ok res →
      depOrdered next acc → depOrdered next res)
    (hdeeper_mem : ∀ path acc nodes res, deeper path acc nodes = .ok res →
      ∀ n ∈ nodes, n ∈ res) :
    ∀ nodes path acc res, dfsLevel next deeper path acc nodes = .ok res →
      depOrdered next acc → depOrdered next res := by
  intro nodes
  induction nodes with
  | nil =>
    intro path acc res h hacc
    simp only [dfsLevel] at h
    obtain rfl := Except.ok.inj h
    exact hacc
  | cons node rest ih =>
    intro path acc res h hacc
    simp only [dfsLevel] at h
    by_cases hmem : node ∈ acc
    · rw [if_pos hmem] at h
      exact ih path acc res h hacc
    · rw [if_neg hmem] at h
      by_cases hpath : node ∈ path
      · rw [if_pos hpath] at h; simp at h
      · rw [if_neg hpath] at h
        cases hdeep : deeper (node :: path) acc (next node) with
        | error e => rw [hdeep] at h; simp at h
        | ok acc' =>
          rw [hdeep] at h
          have hord : depOrdered next acc' := hdeeper_ord _ _ _ _ hdeep hacc
          have hsub : ∀ d ∈ next node, d ∈ acc' := hdeeper_mem _ _ _ _ hdeep
          exact ih path (acc' ++ [node]) res h (depOrdered_append next acc' node hord hsub)

theorem dfsVisit_ordered (next : String → List String) :
    ∀ fuel path acc nodes res, dfsVisit next fuel path acc nodes = .ok res →
      depOrdered next acc → depOrdered next res := by
  intro fuel
  induction fuel with
  | zero =>
    intro path acc nodes res h hacc
    cases nodes with
    | nil =>
      simp only [dfsVisit] at h
      obtain rfl := Except.ok.inj h
      exact hacc
    | cons a l => simp [dfsVisit] at h
  | succ fuel ih =>
    intro path acc nodes res h
    simp only [dfsVisit] at h
    exact dfsLevel_ordered next _ (fun p a n r hr => ih p a n r hr)
      (fun p a n r hr => dfsVisit_nodes_mem next fuel p a n r hr) nodes path acc res h


/-- On success, the resolver's reversed output (the engine's processing
order) lists every container only after all of its direct dependencies. -/
theorem getDependencies_ordered (m : ContainerMap) (c : String) (deps : List String)
    (h : getDependencies m c = .ok deps) :
    depOrdered (directDeps m) deps.reverse := by
  unfold getDependencies at h
  cases hdfs : dfsVisit (directDeps m) (m.containers.length + 1) [c] [] (directDeps m c) with
  | error e => rw [hdfs] at h; simp [Except.map] at h
  | ok res =>
    rw [hdfs] at h
    simp only [Except.map] at h
    obtain rfl := Except.ok.inj h
    rw [List.reverse_reverse]
    exact dfsVisit_ordered (directDeps m) _ _ _ _ res hdfs (depOrdered_nil _)

/-- On success, every backward dependency is a container of the map. -/
theorem getDependenciesBackward_keys (m : ContainerMap) (c : String) (ds : List String)
    (h : getDependenciesBackward m c = .ok ds) :
    ∀ d ∈ ds, (m.containers.lookup d).isSome := by
  unfold getDependenciesBackward at h
  cases hdfs : dfsVisit (directDependents m) (m.containers.length + 1) [c] []
      (directDependents m c) with
  | error e => rw [hdfs] at h; simp [Except.map] at h
  | ok res =>
    rw [hdfs] at h
    simp only [Except.map] at h
    obtain rfl := Except.ok.inj h
    intro d hd
    have hkey : ∀ y x, x ∈ directDependents m y → (m.containers.lookup x).isSome := by
      intro y x hx
      have hx' : x ∈ m.containers.map Prod.fst := (List.mem_filter.mp hx).1
      exact lookup_isSome_of_mem_keys _ _ hx'
    exact dfsVisit_pres (directDependents m) _ hkey _ _ _ _ res hdfs
      (by simp) (hkey c) d (by simpa using hd)

/-! ### Stop (claim C5) -/

theorem stopLoop_flatMap (env : ClientEnv) (m : ContainerMap) (cName : String) :
    ∀ l, stopLoop env m cName l = l.flatMap (stopSegment env m cName) := by
  intro l
  induction l with
  | nil => simp [stopLoop]
  | cons i rest ih => simp [stopLoop, stopSegment, ih]

theorem stop_mem_stopSegment (env : ClientEnv) (m : ContainerMap) (cName : String)
    (i : Option String) :
    Event.stopContainer (m.cnameF cName i) ∈ stopSegment env m cName i := by
  unfold stopSegment
  rcases h : env.stopErr (m.cnameF cName i) with _ | status
  · simp [h]
  · by_cases h4 : status = 404 <;> simp [h, h4]

theorem stopDepLoop_ok (env : ClientEnv) (m : ContainerMap) :
    ∀ ds, (∀ d ∈ ds, (m.containers.lookup d).isSome) →
      (stopDepLoop env m ds).2 = .ok () := by
  intro ds
  induction ds with
  | nil => intro _; simp [stopDepLoop]
  | cons d rest ih =>
    intro h
    obtain ⟨a, ha⟩ := Option.isSome_iff_exists.mp (h d (by simp))
    have hrest := ih (fun x hx => h x (List.mem_cons_of_mem _ hx))
    simp [stopDepLoop, stopContainerM, stopEffInstances, getAssignment, ha, hrest, Except.map]

/-- C5: runtime stop failures never propagate out of `stop` — whatever
status each per-instance stop fails with, `stop` returns normally, every
targeted instance's stop call appears in the trace, and each instance
contributes exactly its `stopSegment`: the stop call alone on success or
404, the stop call plus one failure log for any other status. -/
theorem stop_completes_all (env : ClientEnv) (m : ContainerMap) (container : String)
    (instances : List String) (ds : List String) (targs : List (Option String))
    (hds : getDependenciesBackward m container = .ok ds)
    (ht : stopEffInstances m container instances = .ok targs) :
    (stopM env m container instances true).2 = .ok () ∧
    (∃ evDeps, (stopM env m container instances true).1
      = evDeps ++ targs.flatMap (stopSegment env m container)) ∧
    ∀ i ∈ targs,
      Event.stopContainer (m.cnameF container i) ∈ (stopM env m container instances true).1 := by
  have hkeys := getDependenciesBackward_keys m container ds hds
  have hdep : (stopDepLoop env m ds.reverse).2 = .ok () :=
    stopDepLoop_ok env m ds.reverse (fun d hd => hkeys d (List.mem_reverse.mp hd))
  rcases hsd : stopDepLoop env m ds.reverse with ⟨evD, rD⟩
  rw [hsd] at hdep
  simp only at hdep
  subst hdep
  have hmain : stopM env m container instances true
      = (evD ++ stopLoop env m container targs, .ok ()) := by
    simp [stopM, hds, hsd, stopContainerM, ht]
  refine ⟨by rw [hmain], ⟨evD, by rw [hmain, stopLoop_flatMap]⟩, fun i hi => ?_⟩
  rw [hmain]
  simp only [List.mem_append]
  right
  rw [stopLoop_flatMap]
  exact List.mem_flatMap.mpr ⟨i, hi, stop_mem_stopSegment env m container i⟩

/-- Witness for C5: stopping `web` (instances `bad`, `gone`, `ok`; `bad`
fails with 500, `gone` with 404) returns normally and still stops every
instance. -/
theorem stop_completes_all_witness :
    (stopM envStopMixed mStop "web" [] true).2 = .ok () ∧
    Event.stopContainer "web.bad" ∈ (stopM envStopMixed mStop "web" [] true).1 := by
  have h := stop_completes_all envStopMixed mStop "web" [] []
    [some "bad", some "gone", some "ok"] (by decide) (by decide)
  exact ⟨h.1, h.2.2 (some "bad") (by decide)⟩

/-! ### Attached volumes (claim C7) -/

theorem countCreate_append (n : String) (ev1 ev2 : List Event) :
    countCreate n (ev1 ++ ev2) = countCreate n ev1 + countCreate n ev2 := by
  simp [countCreate, List.filter_append]

theorem runAndDispose_state (env : ClientEnv) (st : EngineState) (coreimage : String)
    (entrypoint : Option String) (command : List String) (user : String)
    (volumesFrom : List String) :
    (runAndDispose env st coreimage entrypoint command user volumesFrom).2.1 = st := by
  unfold runAndDispose
  cases hc : env.createErr none <;>
    cases hs : env.startErr env.tmpId <;>
      cases hw : env.waitErr env.tmpId <;>
        cases hl : env.logsErr env.tmpId <;>
          cases hr : env.removeErr env.tmpId <;>
            simp [hc, hs, hw, hl, hr]

theorem runAndDispose_no_named_creates (env : ClientEnv) (st : EngineState)
    (coreimage : String) (entrypoint : Option String) (command : List String)
    (user : String) (volumesFrom : List String) (n : String) :
    countCreate n (runAndDispose env st coreimage entrypoint command user volumesFrom).1 = 0 := by
  unfold runAndDispose
  cases hc : env.createErr none <;>
    cases hs : env.startErr env.tmpId <;>
      cases hw : env.waitErr env.tmpId <;>
        cases hl : env.logsErr env.tmpId <;>
          cases hr : env.removeErr env.tmpId <;>
            simp [hc, hs, hw, hl, hr, countCreate, isNamedCreate]

theorem adjustPermissions_shape (env : ClientEnv) (st : EngineState)
    (coreimage cName path : String) (user permissions : Option String) :
    (adjustPermissions env st coreimage cName path user permissions).2.1 = st ∧
    ∀ n, countCreate n (adjustPermissions env st coreimage cName path user permissions).1 = 0 := by
  unfold adjustPermissions runAndDispose
  by_cases hu : truthyStr user = true <;> by_cases hp : truthyStr permissions = true <;>
    cases hc : env.createErr none <;>
      cases hs : env.startErr env.tmpId <;>
        cases hw : env.waitErr env.tmpId <;>
          cases hl : env.logsErr env.tmpId <;>
            cases hr2 : env.removeErr env.tmpId <;>
              constructor <;>
                simp [hu, hp, hc, hs, hw, hl, hr2, countCreate, isNamedCreate]

theorem checkImage_shape (env : ClientEnv) (st : EngineState) (img : String) :
    (checkImage env st img).2.1.containerNames = st.containerNames ∧
    ∀ n, countCreate n (checkImage env st img).1 = 0 := by
  unfold checkImage getImageTagsM checkRefreshImages
  rcases hp : partitionColon img with ⟨name, tag⟩
  dsimp only
  split_ifs <;> constructor <;> simp [countCreate, isNamedCreate]

theorem ensureImagesGo_shape (env : ClientEnv) (st : EngineState) (images : List String) :
    (ensureImagesGo env st images).2.1.containerNames = st.containerNames ∧
    ∀ n, countCreate n (ensureImagesGo env st images).1 = 0 := by
  induction images generalizing st with
  | nil => exact ⟨rfl, fun n => rfl⟩
  | cons img rest ih =>
    have hci := checkImage_shape env st img
    unfold ensureImagesGo
    rcases hc : checkImage env st img with ⟨ev, st1, fired⟩
    rw [hc] at hci
    simp only at hci
    have hrest := ih st1
    cases fired with
    | false =>
      constructor
      · simpa using hrest.1.trans hci.1
      · intro n
        simpa [countCreate_append, hci.2 n] using hrest.2 n
    | true => exact ⟨by simpa using hci.1, fun n => by simpa using hci.2 n⟩

/-- `_ensure_images` issues no `create_container` calls and leaves the
container-name cache untouched. -/
theorem ensureImages_shape (env : ClientEnv) (st : EngineState) (images : List String) :
    (ensureImages env st images).2.containerNames = st.containerNames ∧
    ∀ n, countCreate n (ensureImages env st images).1 = 0 := by
  have hsh := ensureImagesGo_shape env st images
  unfold ensureImages
  rcases hgo : ensureImagesGo env st images with ⟨ev, st1, fired⟩
  rw [hgo] at hsh
  simp only at hsh
  cases fired with
  | false => exact ⟨by simpa using hsh.1, fun n => by simpa using hsh.2 n⟩
  | true =>
    constructor
    · simpa [checkRefreshImages] using hsh.1
    · intro n
      simpa [checkRefreshImages, countCreate_append, countCreate, isNamedCreate] using hsh.2 n

theorem mem_cacheInsert_self (l : List String) (n : String) : n ∈ cacheInsert l n := by
  unfold cacheInsert
  split_ifs with h
  · exact h
  · simp

theorem mem_cacheInsert_of_mem (l : List String) (n x : String) (h : x ∈ l) :
    x ∈ cacheInsert l n := by
  unfold cacheInsert
  split_ifs
  · exact h
  · simp [h]

theorem countCreate_zero_iff (n : String) (ev : List Event) :
    countCreate n ev = 0 ↔ ∀ e ∈ ev, isNamedCreate n e = false := by
  simp [countCreate, List.length_eq_zero, List.filter_eq_nil_iff]

theorem countCreate_cons (n : String) (e : Event) (ev : List Event) :
    countCreate n (e :: ev) = (if isNamedCreate n e = true then 1 else 0) + countCreate n ev := by
  by_cases h : isNamedCreate n e = true <;> simp [countCreate, List.filter_cons, h, Nat.add_comm]

theorem getOrCreateVolume_once (env : ClientEnv) (st : EngineState) (m : ContainerMap)
    (baseimage coreimage aliasN : String) (user permissions : Option String)
    (cache : List String) (hld : st.containerNames = some cache) :
    (∃ cache',
      (getOrCreateVolume env st m baseimage coreimage aliasN user permissions).2.1.containerNames
        = some cache' ∧ ∀ x ∈ cache, x ∈ cache') ∧
    (∀ n, countCreate n (getOrCreateVolume env st m baseimage coreimage aliasN user permissions).1
      ≤ if n = m.cnameF aliasN none then 1 else 0) ∧
    (∀ n, n ∈ cache →
      countCreate n (getOrCreateVolume env st m baseimage coreimage aliasN user permissions).1
        = 0) ∧
    (∀ e, (getOrCreateVolume env st m baseimage coreimage aliasN user permissions).2.2 = .ok e →
      ∀ n, 1 ≤ countCreate n
          (getOrCreateVolume env st m baseimage coreimage aliasN user permissions).1 →
        n ∈ cacheOf
          (getOrCreateVolume env st m baseimage coreimage aliasN user permissions).2.1) := by
  unfold getOrCreateVolume getContainerNamesM checkRefreshContainers createNamedContainer
  simp only [hld, Option.isNone_some, Bool.false_or, Bool.or_false, ite_false, if_neg,
    Bool.false_eq_true, cacheOf, Option.getD_some]
  by_cases hmem : m.cnameF aliasN none ∈ cache
  · simp only [hmem, if_pos]
    exact ⟨⟨cache, by simp [hld], fun x hx => hx⟩,
      fun n => by simp [countCreate, isNamedCreate],
      fun n _ => by simp [countCreate, isNamedCreate],
      fun e _ n hn => by simp [countCreate, isNamedCreate] at hn⟩
  · simp only [hmem, if_neg, ite_false, Bool.false_eq_true]
    cases hvp : getVolumePath m aliasN with
    | error e =>
      exact ⟨⟨cache, by simp [hld], fun x hx => hx⟩,
        fun n => by simp [countCreate, isNamedCreate],
        fun n _ => by simp [countCreate, isNamedCreate],
        fun e' he' n hn => by simp [countCreate, isNamedCreate] at hn⟩
    | ok path =>
      cases hce : env.createErr (some (m.cnameF aliasN none)) with
      | some e =>
        refine ⟨⟨cache, by simp [hld], fun x hx => hx⟩, fun n => ?_, fun n hn => ?_,
          fun e' he' => ?_⟩
        · by_cases hn : n = m.cnameF aliasN none
          · simp [countCreate, isNamedCreate, hn]
          · simp [countCreate, isNamedCreate, hn, Ne.symm hn]
        · have hne : ¬n = m.cnameF aliasN none := fun h => hmem (h ▸ hn)
          simp [countCreate, isNamedCreate, hne, Ne.symm hne]
        · simp at he'
      | none =>
        cases hse : env.startErr (m.cnameF aliasN none) with
        | some e =>
          refine ⟨⟨cacheInsert cache (m.cnameF aliasN none), by simp,
              fun x hx => mem_cacheInsert_of_mem _ _ _ hx⟩,
            fun n => ?_, fun n hn => ?_, fun e' he' => ?_⟩
          · by_cases hn : n = m.cnameF aliasN none
            · simp [countCreate, isNamedCreate, hn]
            · simp [countCreate, isNamedCreate, hn, Ne.symm hn]
          · have hne : ¬n = m.cnameF aliasN none := fun h => hmem (h ▸ hn)
            simp [countCreate, isNamedCreate, hne, Ne.symm hne]
          · simp at he'
        | none =>
          dsimp only
          have hap := adjustPermissions_shape env
            { st with containerNames := some (cacheInsert cache (m.cnameF aliasN none)) }
            coreimage (m.cnameF aliasN none) path user permissions
          rcases hadj : adjustPermissions env
              { st with containerNames := some (cacheInsert cache (m.cnameF aliasN none)) }
              coreimage (m.cnameF aliasN none) path user permissions with ⟨evA, stA, rA⟩
          rw [hadj] at hap
          simp only at hap
          obtain ⟨rfl, hcnt⟩ := hap
          refine ⟨⟨cacheInsert cache (m.cnameF aliasN none), by simp,
              fun x hx => mem_cacheInsert_of_mem _ _ _ hx⟩,
            fun n => ?_, fun n hn => ?_, fun e' he' n hn => ?_⟩
          · by_cases hn : n = m.cnameF aliasN none
            · simp [countCreate_cons, countCreate_append, hcnt, isNamedCreate, hn]
            · simp [countCreate_cons, countCreate_append, hcnt, isNamedCreate, hn, Ne.symm hn]
          · have hne : ¬n = m.cnameF aliasN none := fun h => hmem (h ▸ hn)
            simp [countCreate_cons, countCreate_append, hcnt, isNamedCreate, hne, Ne.symm hne]
          · by_cases hn' : n = m.cnameF aliasN none
            · subst hn'
              exact mem_cacheInsert_self _ _
            · simp [countCreate_cons, countCreate_append, hcnt, isNamedCreate, hn',
                Ne.symm hn'] at hn

theorem createAttachedGo_once (env : ClientEnv) (m : ContainerMap)
    (baseimage coreimage : String) (user permissions : Option String) :
    ∀ (aliases : List String) (st : EngineState) (cache : List String),
      st.containerNames = some cache →
      (∃ cache',
        (createAttachedGo env m baseimage coreimage user permissions st aliases).2.1.containerNames
          = some cache' ∧ ∀ x ∈ cache, x ∈ cache') ∧
      (∀ n, countCreate n
        (createAttachedGo env m baseimage coreimage user permissions st aliases).1 ≤ 1) ∧
      (∀ n, n ∈ cache → countCreate n
        (createAttachedGo env m baseimage coreimage user permissions st aliases).1 = 0) ∧
      (∀ n, 1 ≤ countCreate n
          (createAttachedGo env m baseimage coreimage user permissions st aliases).1 →
        ∃ a ∈ aliases, n = m.cnameF a none) := by
  intro aliases
  induction aliases with
  | nil =>
    intro st cache hld
    exact ⟨⟨cache, hld, fun x hx => hx⟩, fun n => by simp [createAttachedGo, countCreate],
      fun n _ => rfl, fun n hn => by simp [createAttachedGo, countCreate] at hn⟩
  | cons a rest ih =>
    intro st cache hld
    have hgv := getOrCreateVolume_once env st m baseimage coreimage a user permissions cache hld
    rcases hgo : getOrCreateVolume env st m baseimage coreimage a user permissions
      with ⟨ev1, st1, r1⟩
    rw [hgo] at hgv
    simp only at hgv
    obtain ⟨⟨cache1, hld1, hsub1⟩, hle1, hz1, hin1⟩ := hgv
    cases r1 with
    | error e =>
      refine ⟨⟨cache1, by simp [createAttachedGo, hgo, hld1], fun x hx => hsub1 x hx⟩,
        fun n => ?_, fun n hn => ?_, fun n hn => ?_⟩
      · simp only [createAttachedGo, hgo]
        exact le_trans (hle1 n) (by split_ifs <;> omega)
      · simp only [createAttachedGo, hgo]
        exact hz1 n hn
      · simp only [createAttachedGo, hgo] at hn
        have := lt_of_lt_of_le hn (hle1 n)
        refine ⟨a, by simp, ?_⟩
        by_contra hne
        simp [hne] at this
    | ok pair =>
      have hrest := ih st1 cache1 hld1
      rcases hre : createAttachedGo env m baseimage coreimage user permissions st1 rest
        with ⟨ev2, st2, r2⟩
      rw [hre] at hrest
      simp only at hrest
      obtain ⟨⟨cache2, hld2, hsub2⟩, hle2, hz2, hin2⟩ := hrest
      refine ⟨⟨cache2, by simp [createAttachedGo, hgo, hre, hld2],
          fun x hx => hsub2 x (hsub1 x hx)⟩,
        fun n => ?_, fun n hn => ?_, fun n hn => ?_⟩
      · simp only [createAttachedGo, hgo, hre]
        simp only [countCreate_append]
        rcases Nat.eq_zero_or_pos (countCreate n ev1) with h0 | h1
        · rw [h0]
          simpa using hle2 n
        · have hmem1 : n ∈ cacheOf st1 := hin1 pair rfl n h1
          simp only [cacheOf, hld1, Option.getD_some] at hmem1
          have h20 : countCreate n ev2 = 0 := hz2 n hmem1
          rw [h20]
          have := hle1 n
          split_ifs at this <;> omega
      · simp only [createAttachedGo, hgo, hre, countCreate_append]
        rw [hz1 n hn, hz2 n (hsub1 n hn)]
      · simp only [createAttachedGo, hgo, hre, countCreate_append] at hn
        rcases Nat.eq_zero_or_pos (countCreate n ev1) with h0 | h1
        · rw [h0] at hn
          simp at hn
          obtain ⟨a', ha', hname⟩ := hin2 n (by omega)
          exact ⟨a', List.mem_cons_of_mem _ ha', hname⟩
        · have := lt_of_lt_of_le h1 (hle1 n)
          refine ⟨a, by simp, ?_⟩
          by_contra hne
          simp [hne] at this

/-- C7: within one `create_attached_volumes` run, every name receives at most
one `create_container` call — even when the same alias is listed twice in
`attaches` — a creation happens only for a name outside the cached set, and
every created name is `cname(alias, None)` for some attached alias: the
attached container is named by the alias alone, independently of any
instance, so all instances of the owning container share it. -/
theorem attached_volumes_once (env : ClientEnv) (st : EngineState) (m : ContainerMap)
    (container baseimage coreimage : String) (asg : Assignment) (cache : List String)
    (hasg : getAssignment m container = .ok asg)
    (hld : st.containerNames = some cache) :
    (∀ n, countCreate n (createAttachedVolumes env st m container baseimage coreimage).1 ≤ 1) ∧
    (∀ n, n ∈ cache →
      countCreate n (createAttachedVolumes env st m container baseimage coreimage).1 = 0) ∧
    (∀ n, 1 ≤ countCreate n (createAttachedVolumes env st m container baseimage coreimage).1 →
      ∃ a ∈ asg.attaches, n = m.cnameF a none) := by
  have hei := ensureImages_shape env st [baseimage, coreimage]
  rcases hev : ensureImages env st [baseimage, coreimage] with ⟨ev1, st1⟩
  rw [hev] at hei
  simp only at hei
  have hld1 : st1.containerNames = some cache := hei.1.trans hld
  have hgo := createAttachedGo_once env m baseimage coreimage asg.user asg.permissions
    asg.attaches st1 cache hld1
  rcases hre : createAttachedGo env m baseimage coreimage asg.user asg.permissions st1
    asg.attaches with ⟨ev2, st2, r2⟩
  rw [hre] at hgo
  simp only at hgo
  obtain ⟨_, hle, hz, hin⟩ := hgo
  refine ⟨fun n => ?_, fun n hn => ?_, fun n hn => ?_⟩
  · simp only [createAttachedVolumes, hasg, hev, hre, countCreate_append]
    rw [hei.2 n]
    simpa using hle n
  · simp only [createAttachedVolumes, hasg, hev, hre, countCreate_append]
    rw [hei.2 n, hz n hn]
  · simp only [createAttachedVolumes, hasg, hev, hre, countCreate_append, hei.2 n] at hn
    exact hin n (by simpa using hn)

/-- Witness for C7: with alias `data` listed twice in `attaches`, the
attached container `data` is still created only once. -/
theorem attached_volumes_once_witness :
    countCreate "data"
      (createAttachedVolumes envW stImgEmpty mDup "db" "default-base" "default-core").1 ≤ 1 :=
  (attached_volumes_once envW stImgEmpty mDup "db" "default-base" "default-core"
    (mkAsg [] ["data", "data"] [] []) [] (by decide) rfl).1 "data"

/-! ### Cache monotonicity and freshness of named creates (claim C2) -/

theorem countCreate_pos_of_mem (ev : List Event) (ca : CreateArgs) (n : String)
    (h : Event.createContainer ca ∈ ev) (hn : ca.name = some n) :
    1 ≤ countCreate n ev := by
  have hmem : Event.createContainer ca ∈ ev.filter (isNamedCreate n) :=
    List.mem_filter.mpr ⟨h, by simp [isNamedCreate, hn]⟩
  have := List.length_pos.mpr (List.ne_nil_of_mem hmem)
  simpa [countCreate] using this

theorem cacheMono_refl (st : EngineState) : cacheMono st st := fun _ h => h

theorem cacheMono_trans {a b c : EngineState} (h1 : cacheMono a b) (h2 : cacheMono b c) :
    cacheMono a c := fun n h => h2 n (h1 n h)

theorem freshNamedCreates_of_no_creates (st : EngineState) (ev : List Event)
    (h : ∀ n, countCreate n ev = 0) : freshNamedCreates st ev := by
  intro ca n hmem hname
  have := countCreate_pos_of_mem ev ca n hmem hname
  rw [h n] at this
  exact absurd this (by omega)

theorem freshNamedCreates_append {st st1 : EngineState} {ev1 ev2 : List Event}
    (mono : cacheMono st st1) (f1 : freshNamedCreates st ev1)
    (f2 : freshNamedCreates st1 ev2) : freshNamedCreates st (ev1 ++ ev2) := by
  intro ca n hmem hname
  rcases List.mem_append.mp hmem with h | h
  · exact f1 ca n h hname
  · exact fun hc => f2 ca n h hname (mono n hc)

theorem ensureImages_monoFresh (env : ClientEnv) (st : EngineState) (images : List String) :
    cacheMono st (ensureImages env st images).2 ∧
    freshNamedCreates st (ensureImages env st images).1 := by
  have h := ensureImages_shape env st images
  exact ⟨fun n hn => by simpa [cacheOf, h.1] using hn,
    freshNamedCreates_of_no_creates st _ h.2⟩

theorem getOrCreateVolume_monoFresh (env : ClientEnv) (st : EngineState) (m : ContainerMap)
    (baseimage coreimage aliasN : String) (user permissions : Option String) :
    cacheMono st (getOrCreateVolume env st m baseimage coreimage aliasN user permissions).2.1 ∧
    freshNamedCreates st
      (getOrCreateVolume env st m baseimage coreimage aliasN user permissions).1 := by
  cases hst : st.containerNames with
  | none =>
    constructor
    · intro n hn
      simp [cacheOf, hst] at hn
    · intro ca n _ _ hn
      simp [cacheOf, hst] at hn
  | some cache =>
    have h := getOrCreateVolume_once env st m baseimage coreimage aliasN user permissions
      cache hst
    obtain ⟨⟨cache', hld', hsub'⟩, _, hz, _⟩ := h
    constructor
    · intro n hn
      rw [cacheOf, hst] at hn
      simp only [Option.getD_some] at hn
      rw [cacheOf, hld']
      simpa using hsub' n hn
    · intro ca n hmem hname hn
      rw [cacheOf, hst] at hn
      simp only [Option.getD_some] at hn
      have h0 := hz n hn
      have h1 := countCreate_pos_of_mem _ ca n hmem hname
      omega

theorem createAttachedGo_monoFresh (env : ClientEnv) (m : ContainerMap)
    (baseimage coreimage : String) (user permissions : Option String)
    (aliases : List String) (st : EngineState) :
    cacheMono st (createAttachedGo env m baseimage coreimage user permissions st aliases).2.1 ∧
    freshNamedCreates st
      (createAttachedGo env m baseimage coreimage user permissions st aliases).1 := by
  induction aliases generalizing st with
  | nil => exact ⟨cacheMono_refl st, fun ca n h => by simp [createAttachedGo] at h⟩
  | cons a rest ih =>
    have hgv := getOrCreateVolume_monoFresh env st m baseimage coreimage a user permissions
    rcases hgo : getOrCreateVolume env st m baseimage coreimage a user permissions
      with ⟨ev1, st1, r1⟩
    rw [hgo] at hgv
    simp only at hgv
    cases r1 with
    | error e =>
      constructor
      · intro n hn
        simpa [createAttachedGo, hgo] using hgv.1 n hn
      · intro ca n hmem hname
        simp only [createAttachedGo, hgo] at hmem
        exact hgv.2 ca n hmem hname
    | ok pair =>
      have hrest := ih st1
      constructor
      · intro n hn
        simp only [createAttachedGo, hgo]
        exact hrest.1 n (hgv.1 n hn)
      · intro ca n hmem hname
        simp only [createAttachedGo, hgo] at hmem
        exact freshNamedCreates_append hgv.1 hgv.2 hrest.2 ca n (by simpa using hmem) hname

theorem createAttachedVolumes_monoFresh (env : ClientEnv) (st : EngineState)
    (m : ContainerMap) (container baseimage coreimage : String) :
    cacheMono st (createAttachedVolumes env st m container baseimage coreimage).2.1 ∧
    freshNamedCreates st (createAttachedVolumes env st m container baseimage coreimage).1 := by
  unfold createAttachedVolumes
  cases hasg : getAssignment m container with
  | error e => exact ⟨cacheMono_refl st, fun ca n h => by simp at h⟩
  | ok asg =>
    have hei := ensureImages_monoFresh env st [baseimage, coreimage]
    rcases hev : ensureImages env st [baseimage, coreimage] with ⟨ev1, st1⟩
    rw [hev] at hei
    simp only at hei
    have hgo := createAttachedGo_monoFresh env m baseimage coreimage asg.user asg.permissions
      asg.attaches st1
    constructor
    · intro n hn
      simp only
      exact hgo.1 n (hei.1 n hn)
    · intro ca n hmem hname
      simp only at hmem
      exact freshNamedCreates_append hei.1 hei.2 hgo.2 ca n hmem hname

theorem getContainerNamesM_shape (env : ClientEnv) (st : EngineState) :
    cacheMono st (getContainerNamesM env st).2.1 ∧
    (getContainerNamesM env st).2.2 = cacheOf (getContainerNamesM env st).2.1 ∧
    (∃ cache0, (getContainerNamesM env st).2.1.containerNames = some cache0) ∧
    ∀ n, countCreate n (getContainerNamesM env st).1 = 0 := by
  unfold getContainerNamesM checkRefreshContainers
  cases hst : st.containerNames with
  | none =>
    refine ⟨fun n hn => ?_, by simp, ⟨env.containerNames, by simp⟩,
      fun n => by simp [countCreate, isNamedCreate]⟩
    simp [cacheOf, hst] at hn
  | some cache =>
    exact ⟨fun n hn => by simpa [hst] using hn, by simp [hst],
      ⟨cache, by simp [hst]⟩, fun n => by simp [hst, countCreate]⟩

theorem instanceLoop_monoFresh (env : ClientEnv) (m : ContainerMap)
    (container image : String) (sv : Option (List String)) (cUser : Option String)
    (cEnv : Option EnvMap) :
    ∀ (insts : List (Option String)) (st : EngineState),
      cacheMono st (instanceLoop env m container image sv cUser cEnv st insts).2.1 ∧
      freshNamedCreates st (instanceLoop env m container image sv cUser cEnv st insts).1 := by
  intro insts
  induction insts with
  | nil =>
    intro st
    exact ⟨cacheMono_refl st, fun ca n h => by simp [instanceLoop] at h⟩
  | cons i rest ih =>
    intro st
    have hg := getContainerNamesM_shape env st
    rcases hgn : getContainerNamesM env st with ⟨ev0, st0, names⟩
    rw [hgn] at hg
    simp only at hg
    obtain ⟨hmono0, hnames, ⟨cache0, hld0⟩, hcnt0⟩ := hg
    by_cases hmem : m.cnameF container i ∈ names
    · have hrest := ih st0
      constructor
      · intro n hn
        simp only [instanceLoop, hgn, hmem, if_pos]
        exact hrest.1 n (hmono0 n hn)
      · intro ca n hcmem hname
        simp only [instanceLoop, hgn, hmem, if_pos] at hcmem
        refine freshNamedCreates_append hmono0
          (freshNamedCreates_append (cacheMono_refl st)
            (freshNamedCreates_of_no_creates st ev0 hcnt0)
            (freshNamedCreates_of_no_creates st
              [Event.pushLog ("Container '" ++ m.cnameF container i ++ "' exists.")]
              (fun k => by simp [countCreate, isNamedCreate])))
          hrest.2 ca n ?_ hname
        simpa using hcmem
    · -- fresh instance: the create is issued for a name outside the loaded cache
      have hnotst : m.cnameF container i ∉ cacheOf st := fun hc =>
        hmem (by rw [hnames]; exact hmono0 _ hc)
      cases hce : env.createErr (some (m.cnameF container i)) with
      | some e =>
        constructor
        · intro n hn
          simp only [instanceLoop, hgn, hmem, if_neg, ite_false, createNamedContainer, hce]
          exact hmono0 n hn
        · intro ca n hcmem hname
          simp only [instanceLoop, hgn, hmem, if_neg, ite_false, createNamedContainer,
            hce] at hcmem
          rcases List.mem_append.mp hcmem with h | h
          · exact fun hc =>
              absurd (countCreate_pos_of_mem _ ca n h hname) (by simp [hcnt0 n])
          · simp at h
            subst h
            intro hc
            have heqn : m.cnameF container i = n := by simpa using hname
            exact hnotst (by rw [heqn]; exact hc)
      | none =>
        have hstep : createNamedContainer env st0 image (m.cnameF container i) sv cUser cEnv
            = ([Event.createContainer
                  (CreateArgs.mk image (some (m.cnameF container i)) sv cUser cEnv none none)],
               { st0 with containerNames := some (cacheInsert cache0 (m.cnameF container i)) },
               Except.ok ()) := by
          unfold createNamedContainer
          rw [hce, hld0]
        constructor
        · intro n hn
          simp only [instanceLoop, hgn, hmem, if_neg, ite_false, hstep]
          refine (ih _).1 n ?_
          have h1 : n ∈ cacheOf st0 := hmono0 n hn
          rw [cacheOf, hld0] at h1
          simp only [Option.getD_some] at h1
          simp only [cacheOf, Option.map_some', Option.getD_some]
          exact mem_cacheInsert_of_mem _ _ _ (mem_cacheInsert_of_mem _ _ _ h1)
        · intro ca n hcmem hname
          simp only [instanceLoop, hgn, hmem, if_neg, ite_false, hstep] at hcmem
          rcases List.mem_append.mp hcmem with h | h
          · rcases List.mem_append.mp h with h' | h'
            · exact fun hc =>
                absurd (countCreate_pos_of_mem _ ca n h' hname) (by simp [hcnt0 n])
            · simp at h'
              subst h'
              intro hc
              have heqn : m.cnameF container i = n := by simpa using hname
              exact hnotst (by rw [heqn]; exact hc)
          · intro hc
            have hmono1 : cacheMono st
                { containerNames :=
                    Option.map (fun x => cacheInsert x (m.cnameF container i))
                      (some (cacheInsert cache0 (m.cnameF container i))),
                  imageTags := st0.imageTags, imageCalls := st0.imageCalls } := by
              intro k hk
              have h1 : k ∈ cacheOf st0 := hmono0 k hk
              rw [cacheOf, hld0] at h1
              simp only [Option.getD_some] at h1
              simp only [cacheOf, Option.map_some', Option.getD_some]
              exact mem_cacheInsert_of_mem _ _ _ (mem_cacheInsert_of_mem _ _ _ h1)
            exact (ih _).2 ca n h hname (hmono1 n hc)

theorem getInstanceContainers_monoFresh (env : ClientEnv) (st : EngineState)
    (m : ContainerMap) (container : String) (instances : List String)
    (volumes : Option (List String)) (user : Option String) (environment : Option EnvMap) :
    cacheMono st
      (getInstanceContainers env st m container instances volumes user environment).2.1 ∧
    freshNamedCreates st
      (getInstanceContainers env st m container instances volumes user environment).1 := by
  unfold getInstanceContainers
  cases hasg : getAssignment m container with
  | error e => exact ⟨cacheMono_refl st, fun ca n h => by simp at h⟩
  | ok asg =>
    dsimp only
    cases hsv : sharedVolumes m volumes asg with
    | error e => exact ⟨cacheMono_refl st, fun ca n h => by simp at h⟩
    | ok sv =>
      have hei := ensureImages_monoFresh env st [pyOrStr asg.image container]
      rcases hev : ensureImages env st [pyOrStr asg.image container] with ⟨ev1, st1⟩
      rw [hev] at hei
      simp only at hei
      have hil := instanceLoop_monoFresh env m container (pyOrStr asg.image container) sv
        (pyOrOptStr user asg.user) (pyOrOptEnv environment asg.environment)
        (effectiveInstances instances asg) st1
      constructor
      · intro n hn
        simp only
        exact hil.1 n (hei.1 n hn)
      · intro ca n hmem hname
        simp only at hmem
        exact freshNamedCreates_append hei.1 hei.2 hil.2 ca n hmem hname

theorem createMain_monoFresh (env : ClientEnv) (st : EngineState) (m : ContainerMap)
    (container : String) (instances : List String) (autocreateAttached : Bool)
    (baseimage : String) (volumes : Option (List String)) (user : Option String)
    (environment : Option EnvMap) :
    cacheMono st
      (createMain env st m container instances autocreateAttached baseimage
        volumes user environment).2.1 ∧
    freshNamedCreates st
      (createMain env st m container instances autocreateAttached baseimage
        volumes user environment).1 := by
  unfold createMain
  cases autocreateAttached with
  | false =>
    simpa using getInstanceContainers_monoFresh env st m container instances
      volumes user environment
  | true =>
    have hav := createAttachedVolumes_monoFresh env st m container baseimage DEFAULT_COREIMAGE
    rcases hv : createAttachedVolumes env st m container baseimage DEFAULT_COREIMAGE
      with ⟨ev1, st1, r1⟩
    rw [hv] at hav
    simp only at hav
    cases r1 with
    | error e => exact ⟨by simpa [hv] using hav.1, by simpa [hv] using hav.2⟩
    | ok l =>
      have hic := getInstanceContainers_monoFresh env st1 m container instances
        volumes user environment
      constructor
      · intro n hn
        simp only [hv, ite_true]
        exact hic.1 n (hav.1 n hn)
      · intro ca n hmem hname
        simp only [hv, ite_true] at hmem
        exact freshNamedCreates_append hav.1 hav.2 hic.2 ca n hmem hname

theorem createDepLoop_monoFresh (env : ClientEnv) (m : ContainerMap)
    (autocreateAttached : Bool) (baseimage : String) :
    ∀ (deps : List String) (st : EngineState),
      cacheMono st (createDepLoop env m autocreateAttached baseimage st deps).2.1 ∧
      freshNamedCreates st (createDepLoop env m autocreateAttached baseimage st deps).1 := by
  intro deps
  induction deps with
  | nil =>
    intro st
    exact ⟨cacheMono_refl st, fun ca n h => by simp [createDepLoop] at h⟩
  | cons d rest ih =>
    intro st
    unfold createDepLoop
    cases autocreateAttached with
    | false =>
      have hic := getInstanceContainers_monoFresh env st m d [] none none none
      rcases hg : getInstanceContainers env st m d [] none none none with ⟨ev1, st1, r1⟩
      rw [hg] at hic
      simp only at hic
      dsimp only
      cases r1 with
      | error e => exact ⟨hic.1, hic.2⟩
      | ok ps =>
        have hrest := ih st1
        constructor
        · intro n hn
          exact hrest.1 n (hic.1 n hn)
        · intro ca n hmem hname
          exact freshNamedCreates_append hic.1 hic.2 hrest.2 ca n hmem hname
    | true =>
      have hav := createAttachedVolumes_monoFresh env st m d baseimage DEFAULT_COREIMAGE
      rcases hv : createAttachedVolumes env st m d baseimage DEFAULT_COREIMAGE
        with ⟨evA, stA, rA⟩
      rw [hv] at hav
      simp only at hav
      dsimp only
      cases rA with
      | error e => exact ⟨hav.1, hav.2⟩
      | ok l =>
        have hic := getInstanceContainers_monoFresh env stA m d [] none none none
        rcases hg : getInstanceContainers env stA m d [] none none none with ⟨ev1, st1, r1⟩
        rw [hg] at hic
        simp only at hic
        dsimp only
        cases r1 with
        | error e =>
          constructor
          · intro n hn
            exact hic.1 n (hav.1 n hn)
          · intro ca n hmem hname
            exact freshNamedCreates_append hav.1 hav.2 hic.2 ca n hmem hname
        | ok ps =>
          have hrest := ih st1
          constructor
          · intro n hn
            exact hrest.1 n (hic.1 n (hav.1 n hn))
          · intro ca n hmem hname
            refine freshNamedCreates_append (cacheMono_trans hav.1 hic.1)
              (freshNamedCreates_append hav.1 hav.2 hic.2) hrest.2 ca n ?_ hname
            simpa using hmem

theorem createM_monoFresh (env : ClientEnv) (st : EngineState) (m : ContainerMap)
    (container : String) (instances : List String)
    (autocreateDependencies autocreateAttached : Bool) (baseimage : String)
    (volumes : Option (List String)) (user : Option String) (environment : Option EnvMap) :
    cacheMono st
      (createM env st m container instances autocreateDependencies autocreateAttached
        baseimage volumes user environment).2.1 ∧
    freshNamedCreates st
      (createM env st m container instances autocreateDependencies autocreateAttached
        baseimage volumes user environment).1 := by
  unfold createM
  cases autocreateDependencies with
  | false =>
    simpa using createMain_monoFresh env st m container instances autocreateAttached
      baseimage volumes user environment
  | true =>
    cases hdeps : getDependencies m container with
    | error e => exact ⟨cacheMono_refl st, fun ca n h => by simp at h⟩
    | ok deps =>
      dsimp only
      have hdl := createDepLoop_monoFresh env m autocreateAttached baseimage deps.reverse st
      rcases hd : createDepLoop env m autocreateAttached baseimage st deps.reverse
        with ⟨ev1, st1, r1⟩
      rw [hd] at hdl
      simp only at hdl
      dsimp only
      cases r1 with
      | error e => exact ⟨hdl.1, hdl.2⟩
      | ok pls =>
        have hmn := createMain_monoFresh env st1 m container instances autocreateAttached
          baseimage volumes user environment
        rcases hm : createMain env st1 m container instances autocreateAttached baseimage
          volumes user environment with ⟨ev2, st2, r2⟩
        rw [hm] at hmn
        simp only at hmn
        dsimp only
        constructor
        · intro n hn
          cases r2 <;> exact hmn.1 n (hdl.1 n hn)
        · intro ca n hmem hname
          cases r2 <;> simp only at hmem <;>
            exact freshNamedCreates_append hdl.1 hdl.2 hmn.2 ca n hmem hname

/-! ### Success characterization: returned pairs (claims C1 and C2) -/

theorem instanceLoop_ok (env : ClientEnv) (m : ContainerMap) (container image : String)
    (sv : Option (List String)) (cUser : Option String) (cEnv : Option EnvMap) :
    ∀ (insts : List (Option String)) (st : EngineState)
      (ps : List (String × String)),
      (instanceLoop env m container image sv cUser cEnv st insts).2.2 = .ok ps →
      ps = insts.map (fun i => (container, m.cnameF container i)) ∧
      ∀ p ∈ ps, p.2 ∈ cacheOf (instanceLoop env m container image sv cUser cEnv st insts).2.1 := by
  intro insts
  induction insts with
  | nil =>
    intro st ps h
    simp only [instanceLoop] at h
    obtain rfl := Except.ok.inj h
    exact ⟨rfl, fun p hp => by simp at hp⟩
  | cons i rest ih =>
    intro st ps h
    have hg := getContainerNamesM_shape env st
    rcases hgn : getContainerNamesM env st with ⟨ev0, st0, names⟩
    rw [hgn] at hg
    simp only at hg
    obtain ⟨hmono0, hnames, ⟨cache0, hld0⟩, _⟩ := hg
    by_cases hmem : m.cnameF container i ∈ names
    · simp only [instanceLoop, hgn, hmem, if_pos] at h ⊢
      rcases hrec : (instanceLoop env m container image sv cUser cEnv st0 rest).2.2 with e | ps'
      · rw [hrec] at h
        simp [Except.map] at h
      · rw [hrec] at h
        simp only [Except.map] at h
        obtain rfl := Except.ok.inj h
        obtain ⟨hps', hcached⟩ := ih st0 ps' hrec
        refine ⟨by simp [hps'], fun p hp => ?_⟩
        rcases List.mem_cons.mp hp with rfl | hp'
        · have hmono := (instanceLoop_monoFresh env m container image sv cUser cEnv rest st0).1
          refine hmono _ ?_
          rw [hnames] at hmem
          exact hmem
        · exact hcached p hp'
    · simp only [instanceLoop, hgn, hmem, if_neg, ite_false] at h ⊢
      cases hce : env.createErr (some (m.cnameF container i)) with
      | some e =>
        rw [show createNamedContainer env st0 image (m.cnameF container i) sv cUser cEnv
            = ([Event.createContainer
                (CreateArgs.mk image (some (m.cnameF container i)) sv cUser cEnv none none)],
               st0, Except.error e) from by unfold createNamedContainer; rw [hce]] at h
        simp at h
      | none =>
        have hstep : createNamedContainer env st0 image (m.cnameF container i) sv cUser cEnv
            = ([Event.createContainer
                  (CreateArgs.mk image (some (m.cnameF container i)) sv cUser cEnv none none)],
               { st0 with containerNames := some (cacheInsert cache0 (m.cnameF container i)) },
               Except.ok ()) := by
          unfold createNamedContainer
          rw [hce, hld0]
        rw [hstep] at h ⊢
        simp only at h ⊢
        rcases hrec : (instanceLoop env m container image sv cUser cEnv
            { containerNames :=
                Option.map (fun x => cacheInsert x (m.cnameF container i))
                  (some (cacheInsert cache0 (m.cnameF container i))),
              imageTags := st0.imageTags, imageCalls := st0.imageCalls } rest).2.2 with e | ps'
        · rw [hrec] at h
          simp [Except.map] at h
        · rw [hrec] at h
          simp only [Except.map] at h
          obtain rfl := Except.ok.inj h
          obtain ⟨hps', hcached⟩ := ih _ ps' hrec
          refine ⟨by simp [hps'], fun p hp => ?_⟩
          rcases List.mem_cons.mp hp with rfl | hp'
          · have hmono := (instanceLoop_monoFresh env m container image sv cUser cEnv rest
              { containerNames :=
                  Option.map (fun x => cacheInsert x (m.cnameF container i))
                    (some (cacheInsert cache0 (m.cnameF container i))),
                imageTags := st0.imageTags, imageCalls := st0.imageCalls }).1
            refine hmono _ ?_
            simp only [cacheOf, Option.map_some', Option.getD_some]
            exact mem_cacheInsert_of_mem _ _ _ (mem_cacheInsert_self _ _)
          · exact hcached p hp'

theorem getAssignment_ok_iff (m : ContainerMap) (c : String) (a : Assignment) :
    getAssignment m c = .ok a ↔ m.containers.lookup c = some a := by
  unfold getAssignment
  cases m.containers.lookup c <;> simp

theorem getInstanceContainers_ok (env : ClientEnv) (st : EngineState) (m : ContainerMap)
    (container : String) (instances : List String) (volumes : Option (List String))
    (user : Option String) (environment : Option EnvMap) (ps : List (String × String))
    (h : (getInstanceContainers env st m container instances volumes user environment).2.2
      = .ok ps) :
    ps = instancePairs m container instances ∧
    ∀ p ∈ ps, p.2 ∈ cacheOf
      (getInstanceContainers env st m container instances volumes user environment).2.1 := by
  unfold getInstanceContainers at h ⊢
  cases hasg : getAssignment m container with
  | error e =>
    rw [hasg] at h
    simp at h
  | ok asg =>
    rw [hasg] at h
    dsimp only at h ⊢
    cases hsv : sharedVolumes m volumes asg with
    | error e =>
      rw [hsv] at h
      simp at h
    | ok sv =>
      rw [hsv] at h
      dsimp only at h ⊢
      have hil := instanceLoop_ok env m container (pyOrStr asg.image container) sv
        (pyOrOptStr user asg.user) (pyOrOptEnv environment asg.environment)
        (effectiveInstances instances asg)
        (ensureImages env st [pyOrStr asg.image container]).2 ps (by simpa using h)
      refine ⟨?_, fun p hp => by simpa using hil.2 p hp⟩
      rw [hil.1]
      unfold instancePairs
      rw [(getAssignment_ok_iff m container asg).mp hasg]

theorem createMain_ok (env : ClientEnv) (st : EngineState) (m : ContainerMap)
    (container : String) (instances : List String) (autocreateAttached : Bool)
    (baseimage : String) (volumes : Option (List String)) (user : Option String)
    (environment : Option EnvMap) (ps : List (String × String))
    (h : (createMain env st m container instances autocreateAttached baseimage
        volumes user environment).2.2 = .ok ps) :
    ps = instancePairs m container instances ∧
    ∀ p ∈ ps, p.2 ∈ cacheOf
      (createMain env st m container instances autocreateAttached baseimage
        volumes user environment).2.1 := by
  unfold createMain at h ⊢
  cases autocreateAttached with
  | false =>
    simp only [Bool.false_eq_true, if_false, ite_false] at h ⊢
    exact getInstanceContainers_ok env st m container instances volumes user environment ps h
  | true =>
    rcases hv : createAttachedVolumes env st m container baseimage DEFAULT_COREIMAGE
      with ⟨evA, stA, rA⟩
    rw [hv] at h
    dsimp only at h ⊢
    cases rA with
    | error e => simp at h
    | ok l =>
      simp only at h ⊢
      exact getInstanceContainers_ok env stA m container instances volumes user environment
        ps (by simpa using h)

theorem createDepLoop_cons_eq (env : ClientEnv) (m : ContainerMap) (att : Bool)
    (base : String) (st : EngineState) (d : String) (rest : List String) :
    createDepLoop env m att base st (d :: rest) =
      (match createMain env st m d [] att base none none none with
       | (ev1, st1, r1) =>
         match r1 with
         | .error e => (ev1, st1, .error e)
         | .ok ps =>
           match createDepLoop env m att base st1 rest with
           | (ev2, st2, r2) => (ev1 ++ ev2, st2, r2.map (ps :: ·))) := by
  cases att <;> rfl

theorem createDepLoop_ok (env : ClientEnv) (m : ContainerMap) (att : Bool) (base : String) :
    ∀ (deps : List String) (st : EngineState) (pls : List (List (String × String))),
      (createDepLoop env m att base st deps).2.2 = .ok pls →
      pls = deps.map (fun d => instancePairs m d []) ∧
      ∀ pl ∈ pls, ∀ p ∈ pl, p.2 ∈ cacheOf (createDepLoop env m att base st deps).2.1 := by
  intro deps
  induction deps with
  | nil =>
    intro st pls h
    simp only [createDepLoop] at h
    obtain rfl := Except.ok.inj h
    exact ⟨rfl, fun pl hpl => by simp at hpl⟩
  | cons d rest ih =>
    intro st pls h
    rw [createDepLoop_cons_eq] at h ⊢
    rcases hm : createMain env st m d [] att base none none none with ⟨ev1, st1, r1⟩
    rw [hm] at h
    dsimp only at h ⊢
    cases r1 with
    | error e => simp at h
    | ok ps =>
      rcases hrec : createDepLoop env m att base st1 rest with ⟨ev2, st2, r2⟩
      rw [hrec] at h
      dsimp only at h ⊢
      cases r2 with
      | error e => simp [Except.map] at h
      | ok pls' =>
        simp only [Except.map] at h
        obtain rfl := Except.ok.inj h
        have hmain := createMain_ok env st m d [] att base none none none ps
          (by rw [hm])
        have hrest := ih st1 pls' (by rw [hrec])
        rw [hrec] at hrest
        simp only at hrest
        have hmono : cacheMono st1 st2 := by
          have := (createDepLoop_monoFresh env m att base rest st1).1
          rw [hrec] at this
          exact this
        refine ⟨by simp [hmain.1, hrest.1], fun pl hpl p hp => ?_⟩
        rcases List.mem_cons.mp hpl with rfl | hpl'
        · have := hmain.2 p hp
          rw [hm] at this
          simp only at this
          exact hmono _ this
        · exact hrest.2 pl hpl' p hp

theorem createM_ok (env : ClientEnv) (st : EngineState) (m : ContainerMap)
    (container : String) (instances : List String) (autocreateAttached : Bool)
    (baseimage : String) (volumes : Option (List String)) (user : Option String)
    (environment : Option EnvMap) (deps : List String) (ps : List (String × String))
    (hdeps : getDependencies m container = .ok deps)
    (h : (createM env st m container instances true autocreateAttached baseimage
        volumes user environment).2.2 = .ok ps) :
    ps = (deps.reverse.map (fun d => instancePairs m d [])).flatten
        ++ instancePairs m container instances ∧
    ∀ p ∈ ps, p.2 ∈ cacheOf
      (createM env st m container instances true autocreateAttached baseimage
        volumes user environment).2.1 := by
  unfold createM at h ⊢
  rw [hdeps] at h ⊢
  dsimp only at h ⊢
  rcases hd : createDepLoop env m autocreateAttached baseimage st deps.reverse
    with ⟨ev1, st1, r1⟩
  rw [hd] at h
  dsimp only at h ⊢
  cases r1 with
  | error e => simp at h
  | ok pls =>
    rcases hm : createMain env st1 m container instances autocreateAttached baseimage
      volumes user environment with ⟨ev2, st2, r2⟩
    rw [hm] at h
    dsimp only at h ⊢
    cases r2 with
    | error e => simp [Except.map] at h
    | ok mps =>
      simp only [Except.map] at h
      obtain rfl := Except.ok.inj h
      have hdl := createDepLoop_ok env m autocreateAttached baseimage deps.reverse st pls
        (by rw [hd])
      rw [hd] at hdl
      simp only at hdl
      have hmn := createMain_ok env st1 m container instances autocreateAttached baseimage
        volumes user environment mps (by rw [hm])
      rw [hm] at hmn
      simp only at hmn
      have hmono : cacheMono st1 st2 := by
        have := (createMain_monoFresh env st1 m container instances autocreateAttached
          baseimage volumes user environment).1
        rw [hm] at this
        exact this
      refine ⟨by rw [hdl.1, hmn.1], fun p hp => ?_⟩
      rcases List.mem_append.mp hp with hp' | hp'
      · rcases List.mem_flatten.mp (by exact hp') with ⟨pl, hpl, hppl⟩
        exact hmono _ (hdl.2 pl (by simpa [hdl.1] using hpl) p hppl)
      · exact hmn.2 p hp'

/-- C2: `create` is idempotent with respect to the name cache — in a second
`create` run from the state the first run left behind, every
`create_container` call carrying a name targets a name that is *not* in the
cached container-name set after the first call (for cached names the loop
only pushes an existence log); and after a successful first call every
returned instance name is in that cached set, so the second identical call
issues no create for any of them. -/
theorem create_idempotent (env : ClientEnv) (st0 : EngineState) (m : ContainerMap)
    (container : String) (instances : List String) (aD aA : Bool) (base : String)
    (volumes : Option (List String)) (user : Option String)
    (environment : Option EnvMap) :
    (∀ ca n,
      Event.createContainer ca ∈
        (createM env
          (createM env st0 m container instances aD aA base volumes user environment).2.1
          m container instances aD aA base volumes user environment).1 →
      ca.name = some n →
      n ∉ cacheOf
        (createM env st0 m container instances aD aA base volumes user environment).2.1) ∧
    (∀ ps,
      (createM env st0 m container instances aD aA base volumes user environment).2.2
        = .ok ps →
      ∀ p ∈ ps, p.2 ∈ cacheOf
        (createM env st0 m container instances aD aA base volumes user environment).2.1) := by
  constructor
  · exact (createM_monoFresh env
      (createM env st0 m container instances aD aA base volumes user environment).2.1
      m container instances aD aA base volumes user environment).2
  · intro ps hps p hp
    cases aD with
    | true =>
      cases hdeps : getDependencies m container with
      | error e =>
        unfold createM at hps
        rw [hdeps] at hps
        simp at hps
      | ok deps =>
        exact (createM_ok env st0 m container instances aA base volumes user environment
          deps ps hdeps hps).2 p hp
    | false =>
      unfold createM at hps ⊢
      simp only [Bool.false_eq_true, if_false, ite_false] at hps ⊢
      exact (createMain_ok env st0 m container instances aA base volumes user environment
        ps hps).2 p hp

/-- Witness for C2: on the §8 scenario map, the first `create("web")` caches
`db`; and when the first run's create of `web` itself failed, the second
run's re-issued create for `web` targets exactly a name absent from the
post-first-run cache. -/
theorem create_idempotent_witness :
    "db" ∈ cacheOf
      (createM envW st0 mW "web" [] true true DEFAULT_BASEIMAGE none none none).2.1 ∧
    "web" ∉ cacheOf
      (createM envFailWeb st0 mW "web" [] true true DEFAULT_BASEIMAGE none none none).2.1 := by
  constructor
  · exact (create_idempotent envW st0 mW "web" [] true true DEFAULT_BASEIMAGE
      none none none).2 [("db", "db"), ("web", "web")] (by decide) ("db", "db") (by decide)
  · exact (create_idempotent envFailWeb st0 mW "web" [] true true DEFAULT_BASEIMAGE
      none none none).1 (CreateArgs.mk "web" (some "web") none none none none none) "web"
      (by decide) (by decide)

/-- Counterexample to C4: on a per-instance host table naming only `i2`,
starting instance `i1` still passes a bind entry to the runtime start call —
keyed by Python `None` — although `i1` has no explicit host location in the
table, refuting the claim that a bind is emitted only when the instance has
one. -/
theorem start_bind_emitted_without_host_location :
    (List.lookup "i1" [("i2", "/h")] = (none : Option String)) ∧
    (startInstanceContainers envW st0 mC4 "c" ["i1"] [] []).1
      = [Event.startContainer "c.i1"
          (some [(none, { bind := "/data", ro := false })]) none none] := by
  constructor
  · rfl
  · decide

theorem getVolumePath_ok (m : ContainerMap) (a p : String)
    (h : getVolumePath m a = .ok p) : m.volumes.lookup a = some p := by
  unfold getVolumePath at h
  cases hl : m.volumes.lookup a with
  | none => rw [hl] at h; simp at h
  | some q =>
    rw [hl] at h
    by_cases hq : q.isEmpty <;> simp [hq] at h
    rw [h]

theorem hostBindPairs_eq_spec (m : ContainerMap) (i : Option String) :
    ∀ (bs : List BindEntry) (ps : BindsDict), hostBindPairs m i bs = .ok ps →
      ps = bs.flatMap (fun b =>
        let spec : BindSpec :=
          { bind := (m.volumes.lookup b.volume).getD "", ro := !b.readwrite }
        match m.host.lookup b.volume with
        | none => []
        | some (.single v) => [(some v, spec)]
        | some (.perInstance d) =>
          match i with
          | none => []
          | some inst => [(d.lookup inst, spec)]) := by
  intro bs
  induction bs with
  | nil =>
    intro ps h
    simp only [hostBindPairs] at h
    obtain rfl := Except.ok.inj h
    rfl
  | cons b rest ih =>
    intro ps h
    simp only [hostBindPairs] at h
    cases hvp : getVolumePath m b.volume with
    | error e => rw [hvp] at h; simp at h
    | ok path =>
      rw [hvp] at h
      rcases hrec : hostBindPairs m i rest with e | ps'
      · rw [hrec] at h; simp [Except.map] at h
      · rw [hrec] at h
        simp only [Except.map] at h
        obtain rfl := Except.ok.inj h
        rw [ih ps' hrec]
        simp [List.flatMap_cons, getVolumePath_ok m b.volume path hvp]

theorem startLoop_ok_events (env : ClientEnv) (m : ContainerMap) (container : String)
    (binds : BindsDict) (cVolumesFrom : Option (List String))
    (cLinks : Option (List (String × String))) (asg : Assignment) :
    ∀ (insts : List (Option String)) (st : EngineState),
      (startLoop env m container binds cVolumesFrom cLinks asg st insts).2.2 = .ok () →
      (startLoop env m container binds cVolumesFrom cLinks asg st insts).1
        = insts.map (fun i =>
            Event.startContainer (m.cnameF container i)
              (let hb := dictUpdate (dictOf
                (asg.binds.flatMap (fun b =>
                  let spec : BindSpec :=
                    { bind := (m.volumes.lookup b.volume).getD "", ro := !b.readwrite }
                  match m.host.lookup b.volume with
                  | none => []
                  | some (.single v) => [(some v, spec)]
                  | some (.perInstance d) =>
                    match i with
                    | none => []
                    | some inst => [(d.lookup inst, spec)]))) binds
               if hb.isEmpty then none else some hb)
              cVolumesFrom cLinks) := by
  intro insts
  induction insts with
  | nil => intro st _; rfl
  | cons i rest ih =>
    intro st h
    simp only [startLoop] at h ⊢
    cases hbp : hostBindPairs m i asg.binds with
    | error e => rw [hbp] at h; simp at h
    | ok pairs =>
      rw [hbp] at h
      cases hse : env.startErr (m.cnameF container i) with
      | some e => rw [hse] at h; simp at h
      | none =>
        rw [hse] at h
        dsimp only at h ⊢
        rw [ih st h, hostBindPairs_eq_spec m i asg.binds pairs hbp]
        simp

/-- C4 (amended): on a successful `_start_instance_containers` run, the
start call issued for each instance carries exactly the amended-spec host
binds (`specHostBinds`, merged under the caller's explicit binds): each
`(alias, rw)` bind entry yields `{container path, read-only flag}`; a single
host value applies to every instance; a per-instance host table emits no
bind for the default instance, and for a named instance always emits one
whose host path is the table's entry or `None` when the instance has no
explicit host location. -/
theorem start_binds_characterization (env : ClientEnv) (st : EngineState)
    (m : ContainerMap) (container : String) (instances : List String)
    (binds : BindsDict) (volumesFrom : List String) (asg : Assignment)
    (hasg : getAssignment m container = .ok asg)
    (hok : (startInstanceContainers env st m container instances binds volumesFrom).2.2
      = .ok ()) :
    (startInstanceContainers env st m container instances binds volumesFrom).1
      = (effectiveInstances instances asg).map (fun i =>
          Event.startContainer (m.cnameF container i)
            (let hb := dictUpdate (dictOf (specHostBinds m asg i)) binds
             if hb.isEmpty then none else some hb)
            (let l := volumesFrom ++ (asg.uses ++ asg.attaches).map (fun n => m.cnameF n none)
             if l.isEmpty then none else some l)
            (let l := dictOf (asg.links_to.map (fun p => (m.cnameF p.1 none, p.2)))
             if l.isEmpty then none else some l)) := by
  unfold startInstanceContainers at hok ⊢
  rw [hasg] at hok ⊢
  dsimp only at hok ⊢
  rw [startLoop_ok_events env m container binds _ _ asg (effectiveInstances instances asg)
    st hok]
  rfl

/-- Witness for C4 (amended): instance `i1` of `c` receives the single-host
bind for `w` and the `None`-keyed bind for `v`. -/
theorem start_binds_characterization_witness :
    (startInstanceContainers envW st0 mC4b "c" ["i1"] [] []).1
      = [Event.startContainer "c.i1"
          (some [(none, { bind := "/data", ro := false }),
                 (some "/hw", { bind := "/logs", ro := true })]) none none] := by
  have h := start_binds_characterization envW st0 mC4b "c" ["i1"] [] []
    ({ mkAsg [] [] [] [] with
        binds := [{ volume := "v", readwrite := true },
                  { volume := "w", readwrite := false }] })
    (by decide) (by decide)
  rw [h]
  decide

/-- The create trace always begins with the dependency-phase trace, which is
computed from the map and starting state alone. -/
theorem createM_depPhase_first (env : ClientEnv) (st : EngineState) (m : ContainerMap)
    (container : String) (instances : List String) (aA : Bool) (base : String)
    (volumes : Option (List String)) (user : Option String) (environment : Option EnvMap) :
    ∃ t, (createM env st m container instances true aA base volumes user environment).1
      = createDepPhase env st m container aA base ++ t := by
  unfold createM createDepPhase
  cases hdeps : getDependencies m container with
  | error e => exact ⟨[], rfl⟩
  | ok deps =>
    dsimp only
    rcases hd : createDepLoop env m aA base st deps.reverse with ⟨ev1, st1, r1⟩
    cases r1 with
    | error e => exact ⟨[], by simp⟩
    | ok pls =>
      exact ⟨(createMain env st1 m container instances aA base volumes user environment).1,
        by simp⟩

/-- The start trace always begins with the dependency-phase trace, which is
computed from the map and starting state alone. -/
theorem startM_depPhase_first (env : ClientEnv) (st : EngineState) (m : ContainerMap)
    (container : String) (instances : List String) (binds : BindsDict)
    (volumesFrom : List String) :
    ∃ t, (startM env st m container instances true binds volumesFrom).1
      = startDepPhase env st m container ++ t := by
  unfold startM startDepPhase
  cases hdeps : getDependencies m container with
  | error e => exact ⟨[], rfl⟩
  | ok deps =>
    dsimp only
    rcases hd : startDepLoop env m st deps.reverse with ⟨ev1, st1, r1⟩
    cases r1 with
    | error e => exact ⟨[], by simp⟩
    | ok u =>
      exact ⟨(startInstanceContainers env st1 m container instances binds volumesFrom).1,
        by simp⟩

/-- C8: dependency containers never receive the caller's per-call
overrides: for any two `create` invocations differing only in the
`volumes`/`user`/`environment` overrides — and any two `start` invocations
differing only in `binds`/`volumes_from` — the traces begin with the *same*
dependency-phase prefix (`createDepPhase`/`startDepPhase`), a term computed
without the overrides, so all runtime calls issued for dependencies are
identical; dependencies are created and started with their own assignment
defaults. -/
theorem overrides_not_forwarded_to_dependencies (env : ClientEnv) (st : EngineState)
    (m : ContainerMap) (container : String) (instances : List String) (aA : Bool)
    (base : String) (v1 v2 : Option (List String)) (u1 u2 : Option String)
    (e1 e2 : Option EnvMap) (b1 b2 : BindsDict) (f1 f2 : List String) :
    (∃ t1 t2,
      (createM env st m container instances true aA base v1 u1 e1).1
        = createDepPhase env st m container aA base ++ t1 ∧
      (createM env st m container instances true aA base v2 u2 e2).1
        = createDepPhase env st m container aA base ++ t2) ∧
    (∃ t1 t2,
      (startM env st m container instances true b1 f1).1
        = startDepPhase env st m container ++ t1 ∧
      (startM env st m container instances true b2 f2).1
        = startDepPhase env st m container ++ t2) := by
  obtain ⟨t1, h1⟩ := createM_depPhase_first env st m container instances aA base v1 u1 e1
  obtain ⟨t2, h2⟩ := createM_depPhase_first env st m container instances aA base v2 u2 e2
  obtain ⟨t3, h3⟩ := startM_depPhase_first env st m container instances b1 f1
  obtain ⟨t4, h4⟩ := startM_depPhase_first env st m container instances b2 f2
  exact ⟨⟨t1, t2, h1, h2⟩, ⟨t3, t4, h3, h4⟩⟩

/-- C1: on a successful `create` with `autocreate_dependencies`, the
returned pairs are exactly the dependencies' instance pairs followed by the
target's, in processing order; the processing order `deps.reverse` is
farthest-dependency-first (every container is preceded by all of its direct
dependencies — `depOrdered`); and the trace is the dependency-phase events
followed by the target's events, so all dependency containers are created
before the target's instances.  The returned pairs are instance pairs only:
`create_attached_volumes` results never reach the return value. -/
theorem create_dependency_order (env : ClientEnv) (st : EngineState) (m : ContainerMap)
    (container : String) (instances : List String) (aA : Bool) (base : String)
    (volumes : Option (List String)) (user : Option String) (environment : Option EnvMap)
    (deps : List String) (ev : List Event) (st' : EngineState)
    (pairs : List (String × String))
    (hdeps : getDependencies m container = .ok deps)
    (hrun : createM env st m container instances true aA base volumes user environment
      = (ev, st', .ok pairs)) :
    pairs = (deps.reverse.map (fun d => instancePairs m d [])).flatten
        ++ instancePairs m container instances ∧
    depOrdered (directDeps m) deps.reverse ∧
    ∃ evMain,
      ev = (createDepLoop env m aA base st deps.reverse).1 ++ evMain ∧
      evMain = (createMain env (createDepLoop env m aA base st deps.reverse).2.1
        m container instances aA base volumes user environment).1 := by
  have h2 : (createM env st m container instances true aA base volumes user
      environment).2.2 = .ok pairs := by rw [hrun]
  obtain ⟨hp, _⟩ := createM_ok env st m container instances aA base volumes user
    environment deps pairs hdeps h2
  refine ⟨hp, getDependencies_ordered m container deps hdeps, ?_⟩
  unfold createM at hrun
  rw [hdeps] at hrun
  dsimp only at hrun
  rcases hd : createDepLoop env m aA base st deps.reverse with ⟨ev1, st1, r1⟩
  rw [hd] at hrun
  cases r1 with
  | error e => simp at hrun
  | ok pls =>
    rcases hm : createMain env st1 m container instances aA base volumes user environment
      with ⟨ev2, st2, r2⟩
    rw [hm] at hrun
    dsimp only at hrun
    cases r2 with
    | error e => simp [Except.map] at hrun
    | ok mps =>
      have hev : ev1 ++ ev2 = ev := congrArg Prod.fst hrun
      refine ⟨ev2, ?_, ?_⟩
      · rw [← hev]
      · dsimp only

/-- Witness for C1: on the §8 scenario map, `create("web")` returns
`[(db, db), (web, web)]` — the dependency's pairs before the target's, with
the attached container `data` absent — and the processing order `[db]` is
dependency-ordered. -/
theorem create_dependency_order_witness :
    ([("db", "db"), ("web", "web")]
      = ((["db"].reverse.map (fun d => instancePairs mW d [])).flatten
          ++ instancePairs mW "web" []) ∧
    depOrdered (directDeps mW) ["db"].reverse) := by
  have h := create_dependency_order envW st0 mW "web" [] true DEFAULT_BASEIMAGE
    none none none ["db"]
    (createM envW st0 mW "web" [] true true DEFAULT_BASEIMAGE none none none).1
    (createM envW st0 mW "web" [] true true DEFAULT_BASEIMAGE none none none).2.1
    [("db", "db"), ("web", "web")]
    (by decide)
    (by decide)
  exact ⟨h.1, h.2.1⟩

end DockerMap
